import Mathlib

/-!
# Verification of the HNSW4hashes HNSW graph index

Shallow embedding of `src/hnsw.py` (class `HNSW`) and the load path of
`src/apotheosis_winmodule.py` (class `ApotheosisWinModule`), together with
proofs settling the frozen claims about the natural-language specification.

Modelling conventions:
* Python objects live in a `store : List Node`; an object reference
  ("handle") is the index at which the object was appended.  Object creation
  appends to the store; nothing is ever removed from the store (Python GC is
  irrelevant to the observable graph state).
* Scores are integers (`Int`): TLSH diffs and ssdeep percentages are
  integral.  The distance algorithm is a parameter `sc : String → String →
  Int` (the hash-to-hash score) together with the `spatial : Bool` flag kept
  in the HNSW state, mirroring `distance_algorithm.is_spatial()`.
* Python exceptions are an explicit error type; a raising computation
  returns the error together with the state at raise time (Python mutations
  before a raise persist).
* `datalayer/node/node_hash.py` (class `HashNode`) is not part of the
  sources; its operations (`get_neighbors_at_layer`, `add_neighbor`,
  `remove_neighbor`, `calculate_similarity`, `n2_closer_than_n1`) are
  modelled from the spec, section 4.2: the neighbor container is a
  per-layer set, `add_neighbor` is idempotent, `remove_neighbor` is ignored
  when the element is absent.
* Python `set` iteration order is implementation defined; sets are modelled
  as duplicate-free lists in insertion order.  All concrete inputs used in
  theorems below are free of score ties, so no conclusion depends on the
  modelled iteration order.
* The unbounded `while` loop of `_search_layer_knn` is given explicit fuel;
  the top-level entry uses fuel that dominates the total number of possible
  heap pops (initial candidates plus one push per store object per
  neighbor-list entry), and the universal theorems below hold for every
  fuel value.
-/

namespace HNSW4

/-- First element minimizing `f`, as Python `min(nodes, key=f)`:
ties keep the earliest element. -/
def argminBy (f : Nat → Int) : List Nat → Option Nat
  | [] => none
  | a :: l =>
    match argminBy f l with
    | none => some a
    | some b => if f b < f a then some b else some a

/-- First element maximizing `f`, as Python `max(nodes, key=f)`:
ties keep the earliest element. -/
def argmaxBy (f : Nat → Int) : List Nat → Option Nat
  | [] => none
  | a :: l =>
    match argmaxBy f l with
    | none => some a
    | some b => if f b > f a then some b else some a

/-- Worker of `dedupFirst`: keep elements not yet seen. -/
def dedupFirstGo : List Nat → List Nat → List Nat
  | [], _ => []
  | a :: t, seen =>
    if a ∈ seen then dedupFirstGo t seen else a :: dedupFirstGo t (a :: seen)

/-- Duplicate removal keeping the first occurrence, as Python
`set(xs)` built by iterating `xs` (insertion order retained by the model). -/
def dedupFirst (l : List Nat) : List Nat := dedupFirstGo l []

/-- Python slice `xs[-M:]`: the last `M` elements for `M > 0`, the whole
list for `M = 0` (since `xs[-0:] = xs[0:] = xs`). -/
def pyLastSlice (xs : List α) (M : Nat) : List α :=
  if M = 0 then xs else xs.drop (xs.length - M)

/-- `heapq.heappush` on a key-sorted list model of the binary heap:
insert keeping keys ascending, after existing equal keys.  Key ties between
distinct nodes are avoided in every concrete input below (the Python heap
order for equal keys is unspecified). -/
def heapPush : List (Int × Nat) → Int × Nat → List (Int × Nat)
  | [], e => [e]
  | (k, v) :: t, e => if e.1 < k then e :: (k, v) :: t else (k, v) :: heapPush t e

/-- A node object: hash id, distance-algorithm tag, assigned max layer and
per-layer neighbor handles.  Modelled from the spec, section 4.2
(`HashRecord`): the neighbor map is total over layers (absent layer =
empty set). -/
structure Node where
  hid : String
  alg : Nat
  maxLayer : Nat
  nbrs : List (List Nat)
  deriving DecidableEq, Repr

/-- Neighbors of a node at a layer (empty when the layer is absent). -/
def Node.nbrsAt (n : Node) (layer : Nat) : List Nat :=
  n.nbrs.getD layer []

/-- Write a full neighbor list at a layer, padding absent layers with
empty sets (total-map model of the per-layer neighbor container). -/
def Node.setNbrsAt (n : Node) (layer : Nat) (l : List Nat) : Node :=
  let padded := if layer < n.nbrs.length then n.nbrs
                else n.nbrs ++ List.replicate (layer + 1 - n.nbrs.length) []
  { n with nbrs := padded.set layer l }

/-- `HashNode.add_neighbor(layer, other)`: idempotent insertion.
Modelled from the spec, section 4.2. -/
def Node.addNbr (n : Node) (layer : Nat) (h : Nat) : Node :=
  let cur := n.nbrsAt layer
  if h ∈ cur then n else n.setNbrsAt layer (cur ++ [h])

/-- `HashNode.remove_neighbor(layer, other)`: idempotent removal.
Modelled from the spec, section 4.2. -/
def Node.removeNbr (n : Node) (layer : Nat) (h : Nat) : Node :=
  n.setNbrsAt layer ((n.nbrsAt layer).filter (· ≠ h))

/-- The mutable state of an `HNSW` object (`src/hnsw.py`, `__init__`):
construction parameters, the object store, `_enter_point` and the
per-layer `_nodes` dictionary (association list in key-insertion order). -/
structure HNSWState where
  M : Nat
  Mmax : Nat
  Mmax0 : Nat
  ef : Nat
  heuristic : Bool
  extendCandidates : Bool
  keepPrunedConns : Bool
  spatial : Bool
  algTag : Nat
  store : List Node
  enterPoint : Option Nat
  nodes : List (Nat × List Nat)
  deriving DecidableEq, Repr

/-- Object lookup: out-of-store handles give an inert empty node (such a
handle is never produced by the embedded operations). -/
def HNSWState.node (st : HNSWState) (h : Nat) : Node :=
  (st.store[h]?).getD ⟨"", 0, 0, []⟩

/-- `node.get_neighbors_at_layer(layer)` through the store. -/
def HNSWState.nbrsAt (st : HNSWState) (h : Nat) (layer : Nat) : List Nat :=
  (st.node h).nbrsAt layer

/-- Apply `add_neighbor` to the object behind a handle. -/
def HNSWState.addNbr (st : HNSWState) (h : Nat) (layer : Nat) (other : Nat) :
    HNSWState :=
  { st with store := st.store.set h ((st.node h).addNbr layer other) }

/-- Apply `remove_neighbor` to the object behind a handle. -/
def HNSWState.removeNbr (st : HNSWState) (h : Nat) (layer : Nat) (other : Nat) :
    HNSWState :=
  { st with store := st.store.set h ((st.node h).removeNbr layer other) }

/-- Python exceptions reachable from the embedded code paths. -/
inductive PyErr
  | nodeAlreadyExists
  | nodeNotFound
  | hnswIsEmpty
  | unmatchDistAlg
  | undefinedErr
  | attributeError
  | nameError
  | runtimeError
  deriving DecidableEq, Repr

/-- Result of a stateful Python call: mutations made before a raise
persist, so the error constructor carries the state at raise time. -/
inductive PyRes (α : Type)
  | ok (a : α) (st : HNSWState)
  | err (e : PyErr) (st : HNSWState)
  deriving DecidableEq, Repr

/-- The state after a call, error or not. -/
def PyRes.state : PyRes α → HNSWState
  | .ok _ st => st
  | .err _ st => st

/-- True when the call returned without raising. -/
def PyRes.isOk : PyRes α → Bool
  | .ok _ _ => true
  | .err _ _ => false

/-- `node.calculate_similarity(other)`: the metric score between the query
hash and the hash behind a handle.  Modelled from the spec, section 4.1
(`score` is symmetric; every concrete `sc` used below is symmetric). -/
def scoreTo (sc : String → String → Int) (st : HNSWState) (q : String) (h : Nat) : Int :=
  sc q (st.node h).hid

/-- The heap-key sign of `_search_layer_knn` exactly as the source sets it:
`1` for a similarity metric (`not is_spatial`), `-1` for a spatial one. -/
def queue_multiplier (spatial : Bool) : Int :=
  if !spatial then 1 else -1

/-- `query.n2_closer_than_n1(n1, n2)`: whether `n2` scores strictly better
than `n1` against the query, plus both scores (the third component is the
score of `n2`, used as the heap key for pushed neighbors).  Modelled from
the spec, section 4.1: smaller wins for spatial metrics, larger wins for
similarity metrics. -/
def n2CloserThanN1 (sc : String → String → Int) (st : HNSWState) (q : String)
    (n1 n2 : Nat) : Bool × Int × Int :=
  let s1 := scoreTo sc st q n1
  let s2 := scoreTo sc st q n2
  (if st.spatial then decide (s2 < s1) else decide (s2 > s1), s1, s2)

/-- `_find_furthest_element`: argmin of the score for similarity metrics,
argmax for spatial ones (first extremum wins, as Python `min`/`max`). -/
def find_furthest_element (sc : String → String → Int) (st : HNSWState)
    (q : String) (ns : List Nat) : Option Nat :=
  if !st.spatial then argminBy (scoreTo sc st q) ns
  else argmaxBy (scoreTo sc st q) ns

/-- `_find_nearest_element`: argmax of the score for similarity metrics,
argmin for spatial ones. -/
def find_nearest_element (sc : String → String → Int) (st : HNSWState)
    (q : String) (ns : List Nat) : Option Nat :=
  if !st.spatial then argmaxBy (scoreTo sc st q) ns
  else argminBy (scoreTo sc st q) ns

/-- The loop state of `_search_layer_knn`: visited set `v`, candidate heap
`C` and current best set `W`. -/
structure SearchSt where
  visited : List Nat
  cand : List (Int × Nat)
  W : List Nat
  deriving DecidableEq, Repr

/-- The inner `for neighbor in _neighbor_list` body of `_search_layer_knn`:
unvisited neighbors better than the furthest of `W` (or arriving while
`|W| < ef`) are pushed into the heap and added to `W`, evicting the
furthest when `|W|` exceeds `ef`.  (The `none` branches are unreachable:
`W` is nonempty whenever the outer loop runs.) -/
def searchProcessNbrs (sc : String → String → Int) (st : HNSWState) (q : String)
    (ef : Nat) : List Nat → SearchSt → SearchSt
  | [], s => s
  | n :: rest, s =>
    if n ∈ s.visited then searchProcessNbrs sc st q ef rest s
    else
      let s1 : SearchSt := { s with visited := s.visited ++ [n] }
      let res :=
        match find_furthest_element sc st q s1.W with
        | some f => n2CloserThanN1 sc st q f n
        | none => (true, 0, scoreTo sc st q n)
      if res.1 || decide (s1.W.length < ef) then
        let cand' := heapPush s1.cand (res.2.2 * queue_multiplier st.spatial, n)
        let W1 := s1.W ++ [n]
        let W2 :=
          if W1.length > ef then
            match find_furthest_element sc st q W1 with
            | some f => W1.erase f
            | none => W1
          else W1
        searchProcessNbrs sc st q ef rest { visited := s1.visited, cand := cand', W := W2 }
      else searchProcessNbrs sc st q ef rest s1

/-- The `while len(candidates) > 0` loop of `_search_layer_knn`, with
explicit fuel.  Pops the minimum-key candidate, stops when the furthest
element of `W` is strictly closer to the query than the popped node,
otherwise expands the popped node's layer neighborhood. -/
def searchLoop (sc : String → String → Int) (st : HNSWState) (q : String)
    (ef layer : Nat) : Nat → SearchSt → List Nat
  | 0, s => s.W
  | fuel + 1, s =>
    match s.cand with
    | [] => s.W
    | (_, closest) :: rest =>
      let furthest := (find_furthest_element sc st q s.W).getD closest
      if (n2CloserThanN1 sc st q closest furthest).1 then s.W
      else
        let nlist := st.nbrsAt closest layer
        let s1 := searchProcessNbrs sc st q ef nlist { s with cand := rest }
        searchLoop sc st q ef layer fuel s1

/-- Initialization of `_search_layer_knn`: `visited = W = set(enter_points)`
and the heap seeded with the deduplicated enter points keyed by
`score * queue_multiplier`. -/
def searchInit (sc : String → String → Int) (st : HNSWState) (q : String)
    (eps : List Nat) : SearchSt :=
  let deps := dedupFirst eps
  { visited := deps
    cand := deps.foldl
      (fun c h => heapPush c (scoreTo sc st q h * queue_multiplier st.spatial, h)) []
    W := deps }

/-- Fuel that dominates the number of loop iterations: each iteration pops
one heap entry, and at most `|set(eps)|` entries are seeded plus one push
per neighbor-list entry in the store. -/
def searchFuel (st : HNSWState) (eps : List Nat) : Nat :=
  eps.length + st.store.foldl (fun a n => a + n.nbrs.foldl (fun b l => b + l.length) 0) 0 + 1

/-- `_search_layer_knn(query, enter_points, ef, layer)`: the set `W` of up
to (roughly) `ef` nearest elements found at one layer.  Read-only on the
HNSW state. -/
def search_layer_knn (sc : String → String → Int) (st : HNSWState) (q : String)
    (eps : List Nat) (ef layer : Nat) : List Nat :=
  searchLoop sc st q ef layer (searchFuel st eps) (searchInit sc st q eps)

/-- Stable insertion into a score-ascending list (equal scores stay after
existing entries), the building block of Python's stable `sorted`. -/
def insertSortedBy (f : Nat → Int) (x : Nat) : List Nat → List Nat
  | [] => [x]
  | a :: l => if f x < f a then x :: a :: l else a :: insertSortedBy f x l

/-- Python `sorted(xs, key=f)`: stable ascending sort. -/
def sortByScore (f : Nat → Int) (l : List Nat) : List Nat :=
  l.foldr (insertSortedBy f) []

/-- `_select_neighbors_simple(node, candidates, M)`: sort by score and keep
the best `M` from the closer end (last `M` for similarity, first `M` for
spatial metrics).  Does not mutate the candidate set (`sorted` copies). -/
def select_neighbors_simple (sc : String → String → Int) (st : HNSWState)
    (q : String) (cands : List Nat) (M : Nat) : List Nat :=
  let sorted := sortByScore (scoreTo sc st q) cands
  if !st.spatial then pyLastSlice sorted M else sorted.take M

/-- Whether extending the candidate set would actually grow it: some
candidate has a layer neighbor outside the set. -/
def heurFreshExists (st : HNSWState) (layer : Nat) (cands : List Nat) : Bool :=
  cands.any (fun c => (st.nbrsAt c layer).any (fun nb => !(cands.contains nb)))

/-- The `while len(_working_candidates) > 0 and len(_r) < M` loop of
`_select_neighbors_heuristics`: repeatedly extract the nearest working
candidate; keep it if it improves on the nearest already-selected element,
else discard it.  Returns `(R, final working set, discarded)`. -/
def heurLoop (sc : String → String → Int) (st : HNSWState) (q : String)
    (M : Nat) : Nat → List Nat → List Nat → List Nat →
    List Nat × List Nat × List Nat
  | 0, w, r, d => (r, w, d)
  | fuel + 1, w, r, d =>
    if 0 < w.length ∧ r.length < M then
      match find_nearest_element sc st q w with
      | none => (r, w, d)
      | some e =>
        let w1 := w.erase e
        if r.length = 0 then heurLoop sc st q M fuel w1 (r ++ [e]) d
        else
          match find_nearest_element sc st q r with
          | none => (r, w1, d)
          | some rNear =>
            if (n2CloserThanN1 sc st q rNear e).1 then heurLoop sc st q M fuel w1 (r ++ [e]) d
            else heurLoop sc st q M fuel w1 r (d ++ [e])
    else (r, w, d)

/-- The `keep_pruned_conns` drain: pour nearest-first from the discarded
set into `R` until `|R| = M` or the discarded set empties. -/
def heurDrain (sc : String → String → Int) (st : HNSWState) (q : String)
    (M : Nat) : Nat → List Nat → List Nat → List Nat × List Nat
  | 0, d, r => (r, d)
  | fuel + 1, d, r =>
    if 0 < d.length ∧ r.length < M then
      match find_nearest_element sc st q d with
      | none => (r, d)
      | some e => heurDrain sc st q M fuel (d.erase e) (r ++ [e])
    else (r, d)

/-- `_select_neighbors_heuristics(node, candidates, M, layer, ...)`.
Returns the selected neighbors together with the final contents of the
caller's candidate set: `_working_candidates = candidates` aliases the
argument, so the caller's set is mutated in place.  With
`extend_candidates` the code adds the candidates' layer neighbors to the
very set it is iterating; CPython raises `RuntimeError: Set changed size
during iteration` at the step after any genuine addition, i.e. exactly
when some candidate has a layer neighbor outside the set. -/
def select_neighbors_heuristics (sc : String → String → Int) (st : HNSWState)
    (q : String) (cands : List Nat) (M layer : Nat) (ext keep : Bool) :
    Except PyErr (List Nat × List Nat) :=
  if ext && heurFreshExists st layer cands then .error .runtimeError
  else
    let (r, w, d) := heurLoop sc st q M cands.length cands [] []
    if keep then .ok ((heurDrain sc st q M d.length d r).1, w)
    else .ok (r, w)

/-- `_select_neighbors`: dispatch between the simple and the heuristic
selection.  The second component is the caller's candidate set after the
call (unchanged for the simple path, drained in place for the heuristic
one). -/
def select_neighbors (sc : String → String → Int) (st : HNSWState) (q : String)
    (cands : List Nat) (M layer : Nat) : Except PyErr (List Nat × List Nat) :=
  if !st.heuristic then .ok (select_neighbors_simple sc st q cands M, cands)
  else select_neighbors_heuristics sc st q cands M layer
    st.extendCandidates st.keepPrunedConns

/-- `_already_exists(query_node, node_list)`: id-based membership. -/
def already_exists (st : HNSWState) (qhid : String) (l : List Nat) : Bool :=
  l.any (fun h => (st.node h).hid == qhid)

/-- `_shrink_nodes(nodes, layer)`.  The source calls
`self._select_neighbors(node, _list, mmax, layer)` where `node` is an
unbound name (the loop variable is `_node`); reaching the over-cap branch
therefore raises `NameError`, so no shrink ever completes and the store is
never modified by this function. -/
def shrink_nodes (st : HNSWState) (ns : List Nat) (layer : Nat) : Except PyErr Unit :=
  let mmax := if layer = 0 then st.Mmax0 else st.Mmax
  if ns.any (fun h => (st.nbrsAt h layer).length > mmax) then .error .nameError
  else .ok ()

/-- The bidirectional linking loop of `_insert_node_to_layers`:
`neighbor.add_neighbor(layer, new_node); new_node.add_neighbor(layer,
neighbor)` for each chosen neighbor. -/
def linkNeighbors (h layer : Nat) : List Nat → HNSWState → HNSWState
  | [], st => st
  | nb :: rest, st => linkNeighbors h layer rest ((st.addNbr nb layer h).addNbr h layer nb)

/-- Remove `h` from the layer-`l` neighbor sets of each handle in the
list (`neighbor.remove_neighbor(l, new_node)`). -/
def removeFromAll (h l : Nat) : List Nat → HNSWState → HNSWState
  | [], st => st
  | nb :: rest, st => removeFromAll h l rest (st.removeNbr nb l h)

/-- The rollback of `_insert_node_to_layers`: for every layer `l` up to the
new node's layer, remove the new node from the neighbor sets of everything
it got linked to at `l`. -/
def rollbackEdges (h : Nat) (st : HNSWState) : HNSWState :=
  (List.range ((st.node h).maxLayer + 1)).foldl
    (fun s l => removeFromAll h l (s.nbrsAt h l) s) st

/-- One sweep layer of `_insert_node_to_layers`: layer search, neighbor
selection, late duplicate detection with rollback, bidirectional linking
and shrink.  On success it returns the (possibly drained) found set with
which the frontier is extended. -/
def insertLayerStep (sc : String → String → Int) (h layer : Nat)
    (eps : List Nat) (st : HNSWState) : PyRes (List Nat) :=
  let qhid := (st.node h).hid
  let W := search_layer_knn sc st qhid eps st.ef layer
  match select_neighbors sc st qhid W st.M layer with
  | .error e => .err e st
  | .ok (newNbrs, Wmut) =>
    if already_exists st qhid Wmut || already_exists st qhid newNbrs then
      if (st.node h).maxLayer > layer then .err .nodeAlreadyExists (rollbackEdges h st)
      else .err .nodeAlreadyExists st
    else
      let st1 := linkNeighbors h layer newNbrs st
      match shrink_nodes st1 newNbrs layer with
      | .error e => .err e st1
      | .ok _ => .ok Wmut st1

/-- The `for layer in range(min_layer, -1, -1)` sweep, from `layer` down
to 0. -/
def insertLoop (sc : String → String → Int) (h : Nat) :
    Nat → List Nat → HNSWState → PyRes Unit
  | 0, eps, st =>
    match insertLayerStep sc h 0 eps st with
    | .err e st1 => .err e st1
    | .ok _ st1 => .ok () st1
  | l + 1, eps, st =>
    match insertLayerStep sc h (l + 1) eps st with
    | .err e st1 => .err e st1
    | .ok wm st1 => insertLoop sc h l (eps ++ wm) st1

/-- `_insert_node_to_layers(new_node, enter_point)`: sweep from
`min(enter_point_layer, new_layer)` down to layer 0. -/
def insert_node_to_layers (sc : String → String → Int) (h : Nat)
    (eps : List Nat) (st : HNSWState) : PyRes Unit :=
  match st.enterPoint with
  | none => .err .attributeError st
  | some e => insertLoop sc h (min (st.node e).maxLayer (st.node h).maxLayer) eps st

/-- The descent loop of `_descend_to_layer`: `k` remaining iterations,
current layer `target + k`; width-1 layer search replaces the current
enter point by the nearest found element unless its id equals the
query id. -/
def descendSteps (sc : String → String → Int) (st : HNSWState) (q : String)
    (target : Nat) : Nat → Nat → Nat
  | 0, ep => ep
  | k + 1, ep =>
    let layer := target + k + 1
    let found := search_layer_knn sc st q [ep] 1 layer
    let ep' :=
      if 0 < found.length then
        if (st.node ep).hid ≠ q then (find_nearest_element sc st q found).getD ep else ep
      else ep
    descendSteps sc st q target k ep'

/-- `_descend_to_layer(query_node, layer)`.  With a null enter point,
reading `self._enter_point.get_layer()` raises
`AttributeError: NoneType object has no attribute get_layer`. -/
def descend_to_layer (sc : String → String → Int) (st : HNSWState) (q : String)
    (target : Nat) : Except PyErr Nat :=
  match st.enterPoint with
  | none => .error .attributeError
  | some e => .ok (descendSteps sc st q target ((st.node e).maxLayer - target) e)

/-- `_insert_node(node)`: append the handle to the per-layer `_nodes`
dictionary, creating the layer key at the end on first use. -/
def dictInsert : List (Nat × List Nat) → Nat → Nat → List (Nat × List Nat)
  | [], layer, h => [(layer, [h])]
  | (k, v) :: rest, layer, h =>
    if k = layer then (k, v ++ [h]) :: rest else (k, v) :: dictInsert rest layer h

/-- `_insert_node` applied to the state. -/
def insertNodeDict (st : HNSWState) (h : Nat) (layer : Nat) : HNSWState :=
  { st with nodes := dictInsert st.nodes layer h }

/-- `add_node(new_node)` with the randomly drawn layer passed explicitly
(the draw `floor(-ln(U) * mL)` is the only random input).  The argument
node object is appended to the store at entry (object creation by the
caller); `set_max_layer` fixes its layer. -/
def add_node (sc : String → String → Int) (st : HNSWState) (hid : String)
    (alg : Nat) (drawnLayer : Nat) : PyRes Bool :=
  let h := st.store.length
  let newNode : Node := ⟨hid, alg, drawnLayer, List.replicate (drawnLayer + 1) []⟩
  let st0 := { st with store := st.store ++ [newNode] }
  if alg ≠ st.algTag then .err .unmatchDistAlg st0
  else
    match st0.enterPoint with
    | some e =>
      if (st0.node e).hid = hid then .err .nodeAlreadyExists st0
      else
        let Lep := (st0.node e).maxLayer
        match descend_to_layer sc st0 hid drawnLayer with
        | .error er => .err er st0
        | .ok ep1 =>
          match insert_node_to_layers sc h [ep1] st0 with
          | .err er st1 => .err er st1
          | .ok _ st1 =>
            let st2 := if drawnLayer > Lep then { st1 with enterPoint := some h } else st1
            .ok true (insertNodeDict st2 h drawnLayer)
    | none => .ok true (insertNodeDict { st0 with enterPoint := some h } h drawnLayer)

/-- `delete_node(node)`.  After the emptiness and distance-algorithm
checks and the read-only descent, the source calls
`self.search_layer_knn(...)`, a method that does not exist on the class
(only `_search_layer_knn` is defined), so every delete on a non-empty
structure raises `AttributeError` with the state untouched. -/
def delete_node (sc : String → String → Int) (st : HNSWState) (hid : String)
    (alg : Nat) : PyRes Bool :=
  if st.enterPoint = none then .err .hnswIsEmpty st
  else if alg ≠ st.algTag then .err .unmatchDistAlg st
  else .err .attributeError st

/-- The score-grouping dictionary of `knn_search`: keys in first-insertion
order, values in insertion order. -/
def groupAdd : List (Int × List Nat) → Int → Nat → List (Int × List Nat)
  | [], v, h => [(v, [h])]
  | (k, l) :: rest, v, h =>
    if k = v then (k, l ++ [h]) :: rest else (k, l) :: groupAdd rest v h

/-- Build the `score → [node]` result dictionary over a sorted list. -/
def groupByScore (sc : String → String → Int) (st : HNSWState) (q : String)
    (l : List Nat) : List (Int × List Nat) :=
  l.foldl (fun acc h => groupAdd acc (scoreTo sc st q h) h) []

/-- `knn_search(query, k, ef)`.  No emptiness check is performed: with a
null enter point the descent raises `AttributeError` (see
`descend_to_layer`). -/
def knn_search (sc : String → String → Int) (st : HNSWState) (qhid : String)
    (qalg : Nat) (k ef : Nat) : PyRes (List (Int × List Nat)) :=
  if qalg ≠ st.algTag then .err .unmatchDistAlg st
  else
    let ef1 := if ef = 0 then st.ef else ef
    match descend_to_layer sc st qhid 1 with
    | .error er => .err er st
    | .ok ep =>
      let W := search_layer_knn sc st qhid [ep] ef1 0
      match select_neighbors sc st qhid W k 0 with
      | .error e => .err e st
      | .ok (knn, _) =>
        .ok (groupByScore sc st qhid (sortByScore (scoreTo sc st qhid) knn)) st

/-- A graph operation issued by a caller: an insert (with its drawn layer)
or a delete. -/
inductive Op
  | add (hid : String) (alg : Nat) (layer : Nat)
  | del (hid : String) (alg : Nat)
  deriving DecidableEq, Repr

/-- Apply one operation, keeping the state it leaves behind whether or not
the call raised (Python exceptions do not roll back mutations). -/
def applyOp (sc : String → String → Int) (st : HNSWState) : Op → HNSWState
  | .add hid alg layer => (add_node sc st hid alg layer).state
  | .del hid alg => (delete_node sc st hid alg).state

/-- A freshly constructed `HNSW` object. -/
def mkHNSW (M Mmax Mmax0 ef : Nat) (heuristic ext keep spatial : Bool)
    (algTag : Nat) : HNSWState :=
  ⟨M, Mmax, Mmax0, ef, heuristic, ext, keep, spatial, algTag, [], none, []⟩

/-- Run a sequence of operations. -/
def runOps (sc : String → String → Int) (st : HNSWState) : List Op → HNSWState
  | [] => st
  | op :: rest => runOps sc (applyOp sc st op) rest

/-- The records currently in the graph: every handle registered in the
per-layer `_nodes` dictionary. -/
def graphHandles (st : HNSWState) : List Nat :=
  st.nodes.foldr (fun p acc => p.2 ++ acc) []

/-- Bidirectionality: every edge between graph records is symmetric. -/
def Sym (st : HNSWState) : Prop :=
  ∀ u ∈ graphHandles st, ∀ v ∈ graphHandles st, ∀ L,
    (v ∈ st.nbrsAt u L ↔ u ∈ st.nbrsAt v L)

/-- Reachability at one layer from an entry set, following neighbor sets. -/
inductive Reaches (st : HNSWState) (layer : Nat) (eps : List Nat) : Nat → Prop
  | base (h : Nat) : h ∈ eps → Reaches st layer eps h
  | step (u v : Nat) : Reaches st layer eps u → v ∈ st.nbrsAt u layer →
      Reaches st layer eps v

/-! ## Binary snapshot loader (`src/apotheosis_winmodule.py`, `__init__`)

Files are byte lists.  `common/constants.py`, `Apotheosis._assert_header`,
`Apotheosis._check_compression`, `HNSW.load_cfg_from_bytes` and
`DBManager.get_winmodule_data_by_pageid` are not among the sources; they
are modelled from the spec, section 4.8: `I_SIZE = 4`, little-endian
integers, header = magic(2) | version(1) | flags(1) | three CRC32 words;
the cfg section holds the eight integer parameters and `beer_factor`; the
record loader (`fetch`) maps a page id to its hash and fails as
`LoaderFailed`. -/

/-- Integer width in the file format.  Modelled from the spec. -/
def I_SIZE : Nat := 4

/-- Header size: 2-byte magic, version, flags, three CRC32 words.
Modelled from the spec. -/
def HEADER_SIZE : Nat := 16

/-- Cfg section size: `M, ef, Mmax, Mmax0, metric_tag, heuristic,
extend_candidates, keep_pruned_conns` as 4-byte integers plus a 4-byte
`beer_factor`.  Modelled from the spec. -/
def CFG_SIZE : Nat := 36

/-- One bit step of the reflected CRC-32 (polynomial `0xEDB88320`),
as computed by `zlib.crc32`. -/
def crc32Round (c : Nat) : Nat :=
  if c % 2 = 1 then (c / 2) ^^^ 0xEDB88320 else c / 2

/-- One byte step of CRC-32. -/
def crc32Byte (c b : Nat) : Nat :=
  crc32Round^[8] (c ^^^ (b % 256))

/-- `zlib.crc32(bs) & 0xffffffff`. -/
def crc32 (bs : List Nat) : Nat :=
  (bs.foldl crc32Byte 0xFFFFFFFF) ^^^ 0xFFFFFFFF

/-- Little-endian integer from bytes; `int.from_bytes(b'', 'little') = 0`,
matching short reads at end of file. -/
def intFromBytesLE (bs : List Nat) : Nat :=
  bs.foldr (fun b acc => b % 256 + 256 * acc) 0

/-- `f.read(n)` from a position: at most `n` bytes and the new position
(short or empty at end of file, as in Python). -/
def readBytes (file : List Nat) (pos n : Nat) : List Nat × Nat :=
  let bs := (file.drop pos).take n
  (bs, pos + bs.length)

/-- Read `count` 4-byte integers, also returning the raw bytes consumed
(for the CRC accumulators). -/
def readInts (file : List Nat) : Nat → Nat → List Nat × List Nat × Nat
  | pos, 0 => ([], [], pos)
  | pos, count + 1 =>
    let (bs, pos1) := readBytes file pos I_SIZE
    let (vs, acc, pos2) := readInts file pos1 count
    (intFromBytesLE bs :: vs, bs ++ acc, pos2)

/-- The neighborhood loop of `_load_node_from_fp`: per neighborhood a
layer, a count and that many neighbor page ids. -/
def readNhoods (file : List Nat) : Nat → Nat → List (Nat × List Nat) × List Nat × Nat
  | pos, 0 => ([], [], pos)
  | pos, n + 1 =>
    let (lb, pos1) := readBytes file pos I_SIZE
    let (cb, pos2) := readBytes file pos1 I_SIZE
    let (pids, pbytes, pos3) := readInts file pos2 (intFromBytesLE cb)
    let (rest, rbytes, pos4) := readNhoods file pos3 n
    ((intFromBytesLE lb, pids) :: rest, lb ++ cb ++ pbytes ++ rbytes, pos4)

/-- A node record as read from the file: page id, layer (meaningful only
`with_layer`), neighborhoods, and the raw bytes consumed. -/
structure RawNode where
  pageId : Nat
  layerRead : Nat
  neighs : List (Nat × List Nat)
  bytes : List Nat
  deriving DecidableEq, Repr

/-- `_load_node_from_fp` without the database part: parse one node record
and return it with the CRC32 of the bytes read and the new position. -/
def loadNodeFromFp (file : List Nat) (pos : Nat) (withLayer : Bool) :
    RawNode × Nat × Nat :=
  let (pidb, pos1) := readBytes file pos I_SIZE
  let (layerb, pos2) := if withLayer then readBytes file pos1 I_SIZE else ([], pos1)
  let (nhb, pos3) := readBytes file pos2 I_SIZE
  let (nhoods, nbytes, pos4) := readNhoods file pos3 (intFromBytesLE nhb)
  let bytes := pidb ++ layerb ++ nhb ++ nbytes
  (⟨intFromBytesLE pidb, intFromBytesLE layerb, nhoods, bytes⟩, crc32 bytes, pos4)

/-- Errors of the load path.  `badCRC` is `ApotFileReadError` raised on a
CRC32 comparison; `pageNotFound` is the `ApotFileReadError` of the second
(linking) pass; `loaderFailed` is a record-loader (database) failure, which
is external (spec: `LoaderFailed`); gzip-wrapped input is external and not
modelled. -/
inductive LoadErr
  | badFormat
  | badCRC
  | unmatchAlg
  | pageNotFound
  | loaderFailed
  | gzipInput
  deriving DecidableEq, Repr

/-- The outcome of a successful load: the metric tag, the enter-point page
id, the loaded pages (page id, hash, layer) and the directed edges added by
the second pass (page, layer, neighbor page); the reverse directions arrive
when the neighbor is processed as a node, as in the source. -/
structure LoadedGraph where
  algTag : Nat
  epPage : Nat
  pages : List (Nat × String × Nat)
  edges : List (Nat × Nat × Nat)
  deriving DecidableEq, Repr

/-- The per-layer node loop of the loader: parse `count` node records at a
layer, fetching each page id from the record loader as the source does
inside `_load_node_from_fp` (before any CRC comparison). -/
def readNodesAtLayer (fetch : Nat → Option String) (file : List Nat)
    (layer : Nat) : Nat → Nat →
    Except LoadErr (List (Nat × String × Nat) × List (Nat × Nat × List Nat) × List Nat × Nat)
  | 0, pos => .ok ([], [], [], pos)
  | count + 1, pos =>
    let (raw, _, pos1) := loadNodeFromFp file pos false
    match fetch raw.pageId with
    | none => .error .loaderFailed
    | some hid =>
      match readNodesAtLayer fetch file layer count pos1 with
      | .error e => .error e
      | .ok (pages, specs, bs, pos2) =>
        .ok ((raw.pageId, hid, layer) :: pages,
          raw.neighs.map (fun p => (raw.pageId, p.1, p.2)) ++ specs,
          raw.bytes ++ bs, pos2)

/-- The layer loop of the loader: per layer a layer index, a node count and
the node records; accumulates the raw bytes of the nodes section. -/
def readLayerEntries (fetch : Nat → Option String) (file : List Nat) :
    Nat → Nat →
    Except LoadErr (List (Nat × String × Nat) × List (Nat × Nat × List Nat) × List Nat × Nat)
  | 0, pos => .ok ([], [], [], pos)
  | n + 1, pos =>
    let (lb, pos1) := readBytes file pos I_SIZE
    let (cb, pos2) := readBytes file pos1 I_SIZE
    match readNodesAtLayer fetch file (intFromBytesLE lb) (intFromBytesLE cb) pos2 with
    | .error e => .error e
    | .ok (pages, specs, bs, pos3) =>
      match readLayerEntries fetch file n pos3 with
      | .error e => .error e
      | .ok (pages2, specs2, bs2, pos4) =>
        .ok (pages ++ pages2, specs ++ specs2, lb ++ cb ++ bs ++ bs2, pos4)

/-- Page-id resolvability in the loaded page map. -/
def pageKnown (pages : List (Nat × String × Nat)) (pid : Nat) : Bool :=
  pages.any (fun p => p.1 = pid)

/-- The second pass: resolve every (page, layer, neighbor pages) spec,
failing with `ApotFileReadError` on an unknown page id, and emit the
directed edges added by `node.add_neighbor(layer, neigh_node)`. -/
def linkPass (pages : List (Nat × String × Nat)) :
    List (Nat × Nat × List Nat) → Except LoadErr (List (Nat × Nat × Nat))
  | [] => .ok []
  | (pid, layer, pids) :: rest =>
    if !pageKnown pages pid then .error .pageNotFound
    else if pids.any (fun q => !pageKnown pages q) then .error .pageNotFound
    else
      match linkPass pages rest with
      | .error e => .error e
      | .ok es => .ok (pids.map (fun q => (pid, layer, q)) ++ es)

/-- `ApotheosisWinModule.__init__` with a filename: the load procedure.
Header and cfg checks, enter-point record (page id resolved through the
record loader before its CRC comparison), nodes section (same order), the
nodes CRC comparison, then the linking pass. -/
def loadApotheosis (fetch : Nat → Option String) (algTag : Nat)
    (file : List Nat) : Except LoadErr LoadedGraph :=
  if file.take 2 = [0x1F, 0x8B] then .error .gzipInput
  else
    let (hdr, pos0) := readBytes file 0 HEADER_SIZE
    if !(decide (hdr.take 2 = [65, 80]) && decide (hdr.getD 2 0 = 1)) then .error .badFormat
    else
      let rCRCcfg := intFromBytesLE ((hdr.drop 4).take 4)
      let rCRCep := intFromBytesLE ((hdr.drop 8).take 4)
      let rCRCnodes := intFromBytesLE ((hdr.drop 12).take 4)
      let (cfg, pos1) := readBytes file pos0 CFG_SIZE
      if crc32 cfg ≠ rCRCcfg then .error .badCRC
      else
        let cfgTag := intFromBytesLE ((cfg.drop 16).take 4)
        if cfgTag ≠ algTag then .error .unmatchAlg
        else
          let (rawEp, crcEp, pos2) := loadNodeFromFp file pos1 true
          match fetch rawEp.pageId with
          | none => .error .loaderFailed
          | some epHid =>
            if crcEp ≠ rCRCep then .error .badCRC
            else
              let (nlb, pos3) := readBytes file pos2 I_SIZE
              match readLayerEntries fetch file (intFromBytesLE nlb) pos3 with
              | .error e => .error e
              | .ok (pages, specs, nbytes, _) =>
                if crc32 (nlb ++ nbytes) ≠ rCRCnodes then .error .badCRC
                else
                  let allPages := (rawEp.pageId, epHid, rawEp.layerRead) :: pages
                  let allSpecs :=
                    rawEp.neighs.map (fun p => (rawEp.pageId, p.1, p.2)) ++ specs
                  match linkPass allPages allSpecs with
                  | .error e => .error e
                  | .ok es => .ok ⟨cfgTag, rawEp.pageId, allPages, es⟩

/-- 4-byte little-endian encoding. -/
def le4 (n : Nat) : List Nat :=
  [n % 256, n / 256 % 256, n / 65536 % 256, n / 16777216 % 256]

/-- Flip one bit of a file (bit index within the whole byte stream). -/
def flipBit (file : List Nat) (i : Nat) : List Nat :=
  file.set (i / 8) ((file.getD (i / 8) 0) ^^^ 2 ^ (i % 8))

/-! ## Concrete fixtures for the claim theorems -/

/-- A symmetric score table for the duplicate-miss scenario (spatial
metric: lower is closer). -/
def dupScore : String → String → Int := fun a b =>
  if a = b then 0
  else
    match (a, b) with
    | ("D", "A") | ("A", "D") => 4
    | ("D", "B") | ("B", "D") => 3
    | ("D", "C") | ("C", "D") => 2
    | _ => 10

/-- A graph containing a record with id "D" in which a fresh insert of id
"D" is not detected: the layer search breaks off before reaching it. -/
def dupGraph : HNSWState :=
  { M := 1, Mmax := 8, Mmax0 := 8, ef := 1,
    heuristic := false, extendCandidates := true, keepPrunedConns := true,
    spatial := true, algTag := 1,
    store := [⟨"A", 1, 0, [[1, 2]]⟩, ⟨"B", 1, 0, [[0]]⟩,
              ⟨"C", 1, 0, [[0, 3]]⟩, ⟨"D", 1, 0, [[2]]⟩],
    enterPoint := some 0,
    nodes := [(0, [0, 1, 2, 3])] }

/-- Spatial score table for the mid-sweep duplicate-detection scenario. -/
def rbScore : String → String → Int := fun a b =>
  if a = b then 0
  else
    match (a, b) with
    | ("X", "E") | ("E", "X") => 5
    | _ => 10

/-- A two-record graph (enter point at layer 1, duplicate at layer 0) in
which inserting id "X" at layer 1 links at layer 1 first and only then
detects the duplicate at layer 0. -/
def rbGraph : HNSWState :=
  { M := 2, Mmax := 8, Mmax0 := 8, ef := 1,
    heuristic := false, extendCandidates := true, keepPrunedConns := true,
    spatial := true, algTag := 1,
    store := [⟨"E", 1, 1, [[1], []]⟩, ⟨"X", 1, 0, [[0]]⟩],
    enterPoint := some 0,
    nodes := [(1, [0]), (0, [1])] }

/-- The state `rbGraph` reaches after the detected duplicate insert: the
layer-1 edge added to the enter point has been rolled back; only the
abandoned node object (never registered in `_nodes`) remembers the link. -/
def rbGraphAfter : HNSWState :=
  { rbGraph with
    store := [⟨"E", 1, 1, [[1], []]⟩, ⟨"X", 1, 0, [[0]]⟩,
              ⟨"X", 1, 1, [[], [0]]⟩] }

/-- Spatial score table for the shrink scenario. -/
def shrinkScore : String → String → Int := fun a b =>
  if a = b then 0
  else
    match (a, b) with
    | ("N", "A") | ("A", "N") => 1
    | ("N", "B") | ("B", "N") => 2
    | _ => 10

/-- Two mutually linked records with `Mmax0 = 1`: already at the cap, so
linking a third record must trigger the shrink step. -/
def shrinkGraph : HNSWState :=
  { M := 2, Mmax := 1, Mmax0 := 1, ef := 2,
    heuristic := false, extendCandidates := true, keepPrunedConns := true,
    spatial := true, algTag := 1,
    store := [⟨"A", 1, 0, [[1]]⟩, ⟨"B", 1, 0, [[0]]⟩],
    enterPoint := some 0,
    nodes := [(0, [0, 1])] }

/-- The state the failed shrink leaves behind: both old records exceed the
layer-0 cap and the exception aborted `add_node` before `_insert_node`. -/
def shrinkGraphAfter : HNSWState :=
  { shrinkGraph with
    store := [⟨"A", 1, 0, [[1, 2]]⟩, ⟨"B", 1, 0, [[0, 2]]⟩,
              ⟨"N", 1, 0, [[0, 1]]⟩] }

/-- Spatial score table for the isolated-pair fixtures. -/
def isoScore : String → String → Int := fun a b =>
  if a = b then 0
  else
    match (a, b) with
    | ("Q", "A") | ("A", "Q") => 1
    | ("Q", "B") | ("B", "Q") => 2
    | _ => 10

/-- Two records with no edges at all (layer 0 neighbor sets empty). -/
def isoGraph : HNSWState :=
  { M := 1, Mmax := 8, Mmax0 := 8, ef := 1,
    heuristic := false, extendCandidates := true, keepPrunedConns := true,
    spatial := true, algTag := 1,
    store := [⟨"A", 1, 0, [[]]⟩, ⟨"B", 1, 0, [[]]⟩],
    enterPoint := some 0,
    nodes := [(0, [0, 1])] }

/-- Similarity-metric score table (higher is closer): the query scores 10
against "A" (closer) and 5 against "B" (farther). -/
def simScore : String → String → Int := fun a b =>
  if a = b then 100
  else
    match (a, b) with
    | ("Q", "A") | ("A", "Q") => 10
    | ("Q", "B") | ("B", "Q") => 5
    | _ => 0

/-- The isolated pair under a similarity metric. -/
def simGraph : HNSWState :=
  { isoGraph with spatial := false }

/-- A singleton graph: one record, no neighbors, it is the enter point. -/
def singletonGraph : HNSWState :=
  { M := 4, Mmax := 8, Mmax0 := 16, ef := 4,
    heuristic := false, extendCandidates := true, keepPrunedConns := true,
    spatial := true, algTag := 1,
    store := [⟨"X", 1, 0, [[]]⟩],
    enterPoint := some 0,
    nodes := [(0, [0])] }

/-- A freshly constructed, empty index. -/
def emptyGraph : HNSWState :=
  mkHNSW 4 8 16 4 false true true true 1

/-- Two mutually linked records (for the delete scenarios). -/
def pairGraph : HNSWState :=
  { M := 4, Mmax := 8, Mmax0 := 16, ef := 4,
    heuristic := false, extendCandidates := true, keepPrunedConns := true,
    spatial := true, algTag := 1,
    store := [⟨"A", 1, 0, [[1]]⟩, ⟨"B", 1, 0, [[0]]⟩],
    enterPoint := some 0,
    nodes := [(0, [0, 1])] }

/-- Cfg section of the demo dump: `M=4, ef=4, Mmax=8, Mmax0=16,
metric_tag=1, heuristic=1, extend=1, keep=1, beer_factor=0`. -/
def demoCfgBytes : List Nat :=
  le4 4 ++ le4 4 ++ le4 8 ++ le4 16 ++ le4 1 ++ le4 1 ++ le4 1 ++ le4 1 ++ le4 0

/-- Entry-point section of the demo dump: page id 1, layer 0, no
neighborhoods. -/
def demoEpBytes : List Nat :=
  le4 1 ++ le4 0 ++ le4 0

/-- Nodes section of the demo dump: zero layers. -/
def demoNodesBytes : List Nat :=
  le4 0

/-- A well-formed dump of a singleton index: header with the three section
CRCs, then the cfg, entry-point and nodes sections. -/
def demoFile : List Nat :=
  [65, 80, 1, 0] ++ le4 (crc32 demoCfgBytes) ++ le4 (crc32 demoEpBytes)
    ++ le4 (crc32 demoNodesBytes) ++ demoCfgBytes ++ demoEpBytes ++ demoNodesBytes

/-- The record loader of the demo: only page id 1 exists in the backing
database. -/
def demoFetch : Nat → Option String := fun p => if p = 1 then some "H1" else none

deriving instance DecidableEq for Except

/-! ## Invariants and frame predicates -/

/-- Every neighbor reference points into the store. -/
def ValidRefs (st : HNSWState) : Prop :=
  ∀ u L v, v ∈ st.nbrsAt u L → v < st.store.length

/-- Every handle registered in `_nodes` points into the store. -/
def ValidHandles (st : HNSWState) : Prop :=
  ∀ u ∈ graphHandles st, u < st.store.length

/-- The enter point, when set, points into the store. -/
def ValidEp (st : HNSWState) : Prop :=
  ∀ e, st.enterPoint = some e → e < st.store.length

/-- The reachable-state invariant: bidirectionality plus handle validity. -/
def Inv (st : HNSWState) : Prop :=
  Sym st ∧ ValidRefs st ∧ ValidHandles st ∧ ValidEp st

/-- Full symmetry of the edges incident to one handle. -/
def SymH (h : Nat) (st : HNSWState) : Prop :=
  ∀ v L, v ∈ st.nbrsAt h L ↔ h ∈ st.nbrsAt v L

/-- Frame between two states: `_nodes`, the enter point and the store size
agree, and neighbor membership is untouched for every pair avoiding `h`. -/
def FrameH (h : Nat) (s t : HNSWState) : Prop :=
  t.nodes = s.nodes ∧ t.enterPoint = s.enterPoint ∧
  t.store.length = s.store.length ∧
  ∀ u L v, u ≠ h → v ≠ h → (v ∈ t.nbrsAt u L ↔ v ∈ s.nbrsAt u L)

/-- Loop invariant of the layer search: everything in `W` and in the heap
is reachable from the entry set. -/
def SearchInv (st : HNSWState) (layer : Nat) (eps : List Nat) (s : SearchSt) : Prop :=
  (∀ x ∈ s.W, Reaches st layer eps x) ∧ (∀ p ∈ s.cand, Reaches st layer eps p.2)

/-- The handles stored at one layer key of the `_nodes` dictionary. -/
def nodesAt (st : HNSWState) (L : Nat) : List Nat :=
  (st.nodes.lookup L).getD []

/-! ## Supporting lemmas: list helpers -/

theorem argminBy_mem {f : Nat → Int} {l : List Nat} :
    ∀ {x : Nat}, argminBy f l = some x → x ∈ l := by
  induction l with
  | nil => intro x h; simp [argminBy] at h
  | cons a t ih =>
    intro x h
    rw [argminBy] at h
    cases hm : argminBy f t with
    | none => rw [hm] at h; simp only [Option.some.injEq] at h; simp [← h]
    | some b =>
      rw [hm] at h
      by_cases hc : f b < f a
      · simp only [if_pos hc, Option.some.injEq] at h
        exact List.mem_cons_of_mem _ (h ▸ ih hm)
      · simp only [if_neg hc, Option.some.injEq] at h; simp [← h]

theorem argmaxBy_mem {f : Nat → Int} {l : List Nat} :
    ∀ {x : Nat}, argmaxBy f l = some x → x ∈ l := by
  induction l with
  | nil => intro x h; simp [argmaxBy] at h
  | cons a t ih =>
    intro x h
    rw [argmaxBy] at h
    cases hm : argmaxBy f t with
    | none => rw [hm] at h; simp only [Option.some.injEq] at h; simp [← h]
    | some b =>
      rw [hm] at h
      by_cases hc : f b > f a
      · simp only [if_pos hc, Option.some.injEq] at h
        exact List.mem_cons_of_mem _ (h ▸ ih hm)
      · simp only [if_neg hc, Option.some.injEq] at h; simp [← h]

theorem argminBy_isSome {f : Nat → Int} {l : List Nat} (h : l ≠ []) :
    ∃ x, argminBy f l = some x := by
  cases l with
  | nil => exact absurd rfl h
  | cons a t =>
    rw [argminBy]
    cases argminBy f t with
    | none => exact ⟨a, rfl⟩
    | some b => by_cases hc : f b < f a <;> simp [hc]

theorem argmaxBy_isSome {f : Nat → Int} {l : List Nat} (h : l ≠ []) :
    ∃ x, argmaxBy f l = some x := by
  cases l with
  | nil => exact absurd rfl h
  | cons a t =>
    rw [argmaxBy]
    cases argmaxBy f t with
    | none => exact ⟨a, rfl⟩
    | some b => by_cases hc : f b > f a <;> simp [hc]

theorem find_furthest_element_mem {sc : String → String → Int} {st : HNSWState}
    {q : String} {ns : List Nat} {x : Nat}
    (h : find_furthest_element sc st q ns = some x) : x ∈ ns := by
  unfold find_furthest_element at h
  by_cases hs : !st.spatial
  · exact argminBy_mem (by simpa [hs] using h)
  · exact argmaxBy_mem (by simpa [hs] using h)

theorem find_nearest_element_mem {sc : String → String → Int} {st : HNSWState}
    {q : String} {ns : List Nat} {x : Nat}
    (h : find_nearest_element sc st q ns = some x) : x ∈ ns := by
  unfold find_nearest_element at h
  by_cases hs : !st.spatial
  · exact argmaxBy_mem (by simpa [hs] using h)
  · exact argminBy_mem (by simpa [hs] using h)

theorem find_furthest_element_isSome {sc : String → String → Int} {st : HNSWState}
    {q : String} {ns : List Nat} (h : ns ≠ []) :
    ∃ x, find_furthest_element sc st q ns = some x := by
  unfold find_furthest_element
  by_cases hs : !st.spatial
  · simpa [hs] using argminBy_isSome (f := scoreTo sc st q) h
  · simpa [hs] using argmaxBy_isSome (f := scoreTo sc st q) h

theorem find_nearest_element_isSome {sc : String → String → Int} {st : HNSWState}
    {q : String} {ns : List Nat} (h : ns ≠ []) :
    ∃ x, find_nearest_element sc st q ns = some x := by
  unfold find_nearest_element
  by_cases hs : !st.spatial
  · simpa [hs] using argmaxBy_isSome (f := scoreTo sc st q) h
  · simpa [hs] using argminBy_isSome (f := scoreTo sc st q) h

theorem dedupFirstGo_subset : ∀ (t seen : List Nat) (x : Nat),
    x ∈ dedupFirstGo t seen → x ∈ t
  | [], _, x, h => by simp [dedupFirstGo] at h
  | a :: t, seen, x, h => by
    rw [dedupFirstGo] at h
    by_cases ha : a ∈ seen
    · rw [if_pos ha] at h
      exact List.mem_cons_of_mem _ (dedupFirstGo_subset t seen x h)
    · rw [if_neg ha] at h
      rcases List.mem_cons.mp h with h1 | h2
      · exact h1 ▸ List.mem_cons_self a t
      · exact List.mem_cons_of_mem _ (dedupFirstGo_subset t _ x h2)

theorem dedupFirst_subset (l : List Nat) (x : Nat) (h : x ∈ dedupFirst l) : x ∈ l :=
  dedupFirstGo_subset l [] x h

theorem mem_heapPush {c : List (Int × Nat)} {e p : Int × Nat}
    (h : p ∈ heapPush c e) : p ∈ c ∨ p = e := by
  induction c with
  | nil => simp [heapPush] at h; exact Or.inr h
  | cons a t ih =>
    rw [heapPush] at h
    by_cases hc : e.1 < a.1
    · simp only [if_pos hc] at h
      rcases List.mem_cons.mp h with h1 | h2
      · exact Or.inr h1
      · exact Or.inl h2
    · simp only [if_neg hc] at h
      rcases List.mem_cons.mp h with h1 | h2
      · exact Or.inl (h1 ▸ List.mem_cons_self a t)
      · rcases ih h2 with h3 | h3
        · exact Or.inl (List.mem_cons_of_mem _ h3)
        · exact Or.inr h3

theorem mem_insertSortedBy {f : Nat → Int} {x y : Nat} {l : List Nat}
    (h : y ∈ insertSortedBy f x l) : y ∈ l ∨ y = x := by
  induction l with
  | nil => simp [insertSortedBy] at h; exact Or.inr h
  | cons a t ih =>
    rw [insertSortedBy] at h
    by_cases hc : f x < f a
    · simp only [if_pos hc] at h
      rcases List.mem_cons.mp h with h1 | h2
      · exact Or.inr h1
      · exact Or.inl h2
    · simp only [if_neg hc] at h
      rcases List.mem_cons.mp h with h1 | h2
      · exact Or.inl (h1 ▸ List.mem_cons_self a t)
      · rcases ih h2 with h3 | h3
        · exact Or.inl (List.mem_cons_of_mem _ h3)
        · exact Or.inr h3

theorem mem_sortByScore {f : Nat → Int} {l : List Nat} {x : Nat}
    (h : x ∈ sortByScore f l) : x ∈ l := by
  induction l with
  | nil => simp [sortByScore] at h
  | cons a t ih =>
    rw [sortByScore, List.foldr_cons] at h
    rcases mem_insertSortedBy h with h1 | h2
    · exact List.mem_cons_of_mem _ (ih h1)
    · exact h2 ▸ List.mem_cons_self a t

theorem pyLastSlice_subset {l : List α} {M : Nat} {x : α}
    (h : x ∈ pyLastSlice l M) : x ∈ l := by
  unfold pyLastSlice at h
  by_cases hM : M = 0
  · simpa [hM] using h
  · exact List.mem_of_mem_drop (by simpa [hM] using h)

/-! ## Supporting lemmas: node and store mutations -/

theorem nbrsAt_setNbrsAt (n : Node) (L : Nat) (l : List Nat) (L' : Nat) :
    (n.setNbrsAt L l).nbrsAt L' = if L' = L then l else n.nbrsAt L' := by
  unfold Node.setNbrsAt Node.nbrsAt
  simp only [List.getD_eq_getElem?_getD]
  by_cases hL : L < n.nbrs.length
  · simp only [if_pos hL]
    by_cases he : L' = L
    · subst he
      rw [List.getElem?_set_eq (by simpa using hL)]
      simp
    · rw [List.getElem?_set_ne (fun hh => he hh.symm)]
      simp [he]
  · simp only [if_neg hL]
    have hlen : (n.nbrs ++ List.replicate (L + 1 - n.nbrs.length) []).length = L + 1 := by
      simp only [List.length_append, List.length_replicate]
      omega
    by_cases he : L' = L
    · subst he
      rw [List.getElem?_set_eq (by rw [hlen]; omega)]
      simp
    · rw [List.getElem?_set_ne (fun hh => he hh.symm)]
      simp only [if_neg he, List.getElem?_append]
      by_cases hlt : L' < n.nbrs.length
      · simp [hlt]
      · simp only [if_neg hlt, List.getElem?_replicate]
        have h1 : n.nbrs[L']? = none := by
          rw [List.getElem?_eq_none]
          omega
        rw [h1]
        by_cases h2 : L' - n.nbrs.length < L + 1 - n.nbrs.length <;> simp [h2]

theorem mem_addNbr (n : Node) (L h L' v : Nat) :
    v ∈ (n.addNbr L h).nbrsAt L' ↔ v ∈ n.nbrsAt L' ∨ (L' = L ∧ v = h) := by
  unfold Node.addNbr
  by_cases hmem : h ∈ n.nbrsAt L
  · simp only [if_pos hmem]
    constructor
    · exact Or.inl
    · rintro (hv | ⟨hL, hv⟩)
      · exact hv
      · subst hL; subst hv; exact hmem
  · simp only [if_neg hmem, nbrsAt_setNbrsAt]
    by_cases hL : L' = L
    · subst hL; simp [List.mem_append]
    · simp [hL]

theorem mem_removeNbr (n : Node) (L h L' v : Nat) :
    v ∈ (n.removeNbr L h).nbrsAt L' ↔ v ∈ n.nbrsAt L' ∧ ¬(L' = L ∧ v = h) := by
  unfold Node.removeNbr
  rw [nbrsAt_setNbrsAt]
  by_cases hL : L' = L
  · subst hL
    rw [if_pos rfl]
    simp only [List.mem_filter, decide_eq_true_eq, ne_eq]
    tauto
  · simp [hL]

theorem node_set (st : HNSWState) (a : Nat) (nd : Node) (u : Nat) :
    ({ st with store := st.store.set a nd } : HNSWState).node u =
      if u = a ∧ a < st.store.length then nd else st.node u := by
  unfold HNSWState.node
  simp only [List.getElem?_set]
  by_cases he : a = u
  · subst he
    by_cases hl : a < st.store.length
    · simp [hl]
    · have hn : st.store[a]? = none := List.getElem?_eq_none (by omega)
      simp [hl, hn]
  · simp only [if_neg he]
    have hc : ¬(u = a ∧ a < st.store.length) := fun hc => he hc.1.symm
    simp [hc]

theorem mem_nbrsAt_addNbr (st : HNSWState) (a L b u L' v : Nat) :
    v ∈ (st.addNbr a L b).nbrsAt u L' ↔
      v ∈ st.nbrsAt u L' ∨ (u = a ∧ a < st.store.length ∧ L' = L ∧ v = b) := by
  unfold HNSWState.addNbr HNSWState.nbrsAt
  rw [node_set]
  by_cases hc : u = a ∧ a < st.store.length
  · rw [if_pos hc]
    rcases hc with ⟨h1, h2⟩
    subst h1
    rw [mem_addNbr]
    constructor
    · rintro (hv | ⟨hL, hv⟩)
      · exact Or.inl hv
      · exact Or.inr ⟨rfl, h2, hL, hv⟩
    · rintro (hv | ⟨-, -, hL, hv⟩)
      · exact Or.inl hv
      · exact Or.inr ⟨hL, hv⟩
  · rw [if_neg hc]
    constructor
    · exact Or.inl
    · rintro (hv | ⟨h1, h2, -, -⟩)
      · exact hv
      · exact absurd ⟨h1, h2⟩ hc

theorem mem_nbrsAt_removeNbr (st : HNSWState) (a L b u L' v : Nat) :
    v ∈ (st.removeNbr a L b).nbrsAt u L' ↔
      v ∈ st.nbrsAt u L' ∧ ¬(u = a ∧ a < st.store.length ∧ L' = L ∧ v = b) := by
  unfold HNSWState.removeNbr HNSWState.nbrsAt
  rw [node_set]
  by_cases hc : u = a ∧ a < st.store.length
  · rw [if_pos hc]
    rcases hc with ⟨h1, h2⟩
    subst h1
    rw [mem_removeNbr]
    constructor
    · rintro ⟨hv, hn⟩
      refine ⟨hv, ?_⟩
      rintro ⟨-, -, hL, hb⟩
      exact hn ⟨hL, hb⟩
    · rintro ⟨hv, hn⟩
      refine ⟨hv, ?_⟩
      rintro ⟨hL, hb⟩
      exact hn ⟨rfl, h2, hL, hb⟩
  · rw [if_neg hc]
    constructor
    · intro hv
      refine ⟨hv, ?_⟩
      rintro ⟨h1, h2, -, -⟩
      exact hc ⟨h1, h2⟩
    · exact fun h => h.1

theorem addNbr_fields (st : HNSWState) (a L b : Nat) :
    (st.addNbr a L b).nodes = st.nodes ∧
    (st.addNbr a L b).enterPoint = st.enterPoint ∧
    (st.addNbr a L b).store.length = st.store.length := by
  refine ⟨rfl, rfl, ?_⟩
  simp [HNSWState.addNbr]

theorem removeNbr_fields (st : HNSWState) (a L b : Nat) :
    (st.removeNbr a L b).nodes = st.nodes ∧
    (st.removeNbr a L b).enterPoint = st.enterPoint ∧
    (st.removeNbr a L b).store.length = st.store.length := by
  refine ⟨rfl, rfl, ?_⟩
  simp [HNSWState.removeNbr]

/-! ## Supporting lemmas: linking, rollback and frames -/

theorem linkNeighbors_fields (h L : Nat) (nbs : List Nat) (st : HNSWState) :
    (linkNeighbors h L nbs st).nodes = st.nodes ∧
    (linkNeighbors h L nbs st).enterPoint = st.enterPoint ∧
    (linkNeighbors h L nbs st).store.length = st.store.length := by
  induction nbs generalizing st with
  | nil => exact ⟨rfl, rfl, rfl⟩
  | cons nb rest ih =>
    rw [linkNeighbors]
    rcases ih ((st.addNbr nb L h).addNbr h L nb) with ⟨h1, h2, h3⟩
    rcases addNbr_fields (st.addNbr nb L h) h L nb with ⟨g1, g2, g3⟩
    rcases addNbr_fields st nb L h with ⟨f1, f2, f3⟩
    exact ⟨h1.trans (g1.trans f1), h2.trans (g2.trans f2), h3.trans (g3.trans f3)⟩

theorem mem_nbrsAt_linkNeighbors (h L : Nat) (nbs : List Nat) (st : HNSWState)
    (hh : h < st.store.length) (hnbs : ∀ nb ∈ nbs, nb < st.store.length)
    (u L' v : Nat) :
    v ∈ (linkNeighbors h L nbs st).nbrsAt u L' ↔
      v ∈ st.nbrsAt u L' ∨ (L' = L ∧ u = h ∧ v ∈ nbs) ∨
        (L' = L ∧ v = h ∧ u ∈ nbs) := by
  induction nbs generalizing st with
  | nil => simp [linkNeighbors]
  | cons nb rest ih =>
    rw [linkNeighbors]
    have hnb : nb < st.store.length := hnbs nb (List.mem_cons_self nb rest)
    have hlen1 : (st.addNbr nb L h).store.length = st.store.length :=
      (addNbr_fields st nb L h).2.2
    have hlen2 : ((st.addNbr nb L h).addNbr h L nb).store.length = st.store.length :=
      ((addNbr_fields (st.addNbr nb L h) h L nb).2.2).trans hlen1
    rw [ih _ (by rw [hlen2]; exact hh)
        (fun x hx => by rw [hlen2]; exact hnbs x (List.mem_cons_of_mem _ hx))]
    rw [mem_nbrsAt_addNbr, mem_nbrsAt_addNbr, hlen1]
    simp only [List.mem_cons]
    constructor
    · rintro (((hv | ⟨h1, h2, h3, h4⟩) | ⟨h1, h2, h3, h4⟩) | ⟨h1, h2, h3⟩ | ⟨h1, h2, h3⟩)
      · exact Or.inl hv
      · exact Or.inr (Or.inr ⟨h3, h4, Or.inl h1⟩)
      · exact Or.inr (Or.inl ⟨h3, h1, Or.inl h4⟩)
      · exact Or.inr (Or.inl ⟨h1, h2, Or.inr h3⟩)
      · exact Or.inr (Or.inr ⟨h1, h2, Or.inr h3⟩)
    · rintro (hv | ⟨h1, h2, h3 | h3⟩ | ⟨h1, h2, h3 | h3⟩)
      · exact Or.inl (Or.inl (Or.inl hv))
      · exact Or.inl (Or.inr ⟨h2, hh, h1, h3⟩)
      · exact Or.inr (Or.inl ⟨h1, h2, h3⟩)
      · exact Or.inl (Or.inl (Or.inr ⟨h3, hnb, h1, h2⟩))
      · exact Or.inr (Or.inr ⟨h1, h2, h3⟩)

theorem FrameH_refl (h : Nat) (st : HNSWState) : FrameH h st st :=
  ⟨rfl, rfl, rfl, fun _ _ _ _ _ => Iff.rfl⟩

theorem FrameH_trans {h : Nat} {s t u : HNSWState}
    (h1 : FrameH h s t) (h2 : FrameH h t u) : FrameH h s u :=
  ⟨h2.1.trans h1.1, h2.2.1.trans h1.2.1, h2.2.2.1.trans h1.2.2.1,
    fun a L v ha hv => (h2.2.2.2 a L v ha hv).trans (h1.2.2.2 a L v ha hv)⟩

theorem FrameH_linkNeighbors (h L : Nat) (nbs : List Nat) (st : HNSWState) :
    FrameH h st (linkNeighbors h L nbs st) := by
  induction nbs generalizing st with
  | nil => exact FrameH_refl h st
  | cons nb rest ih =>
    rw [linkNeighbors]
    refine FrameH_trans ?_ (ih _)
    rcases addNbr_fields (st.addNbr nb L h) h L nb with ⟨g1, g2, g3⟩
    rcases addNbr_fields st nb L h with ⟨f1, f2, f3⟩
    refine ⟨g1.trans f1, g2.trans f2, g3.trans f3, fun a Lx v ha hv => ?_⟩
    rw [mem_nbrsAt_addNbr, mem_nbrsAt_addNbr]
    constructor
    · rintro ((h1 | ⟨-, -, -, h4⟩) | ⟨h1, -, -, -⟩)
      · exact h1
      · exact absurd h4 hv
      · exact absurd h1 ha
    · exact fun h1 => Or.inl (Or.inl h1)

theorem removeFromAll_fields (h l : Nat) (nbs : List Nat) (st : HNSWState) :
    (removeFromAll h l nbs st).nodes = st.nodes ∧
    (removeFromAll h l nbs st).enterPoint = st.enterPoint ∧
    (removeFromAll h l nbs st).store.length = st.store.length := by
  induction nbs generalizing st with
  | nil => exact ⟨rfl, rfl, rfl⟩
  | cons nb rest ih =>
    rw [removeFromAll]
    rcases ih (st.removeNbr nb l h) with ⟨h1, h2, h3⟩
    rcases removeNbr_fields st nb l h with ⟨f1, f2, f3⟩
    exact ⟨h1.trans f1, h2.trans f2, h3.trans f3⟩

theorem mem_nbrsAt_removeFromAll_ne (h l : Nat) (nbs : List Nat) (st : HNSWState)
    (u L' v : Nat) (hv : v ≠ h) :
    v ∈ (removeFromAll h l nbs st).nbrsAt u L' ↔ v ∈ st.nbrsAt u L' := by
  induction nbs generalizing st with
  | nil => exact Iff.rfl
  | cons nb rest ih =>
    rw [removeFromAll, ih]
    rw [mem_nbrsAt_removeNbr]
    constructor
    · exact fun h1 => h1.1
    · intro h1
      refine ⟨h1, ?_⟩
      rintro ⟨-, -, -, h4⟩
      exact hv h4

theorem mem_nbrsAt_removeFromAll_subset (h l : Nat) (nbs : List Nat)
    (st : HNSWState) (u L' v : Nat)
    (hv : v ∈ (removeFromAll h l nbs st).nbrsAt u L') : v ∈ st.nbrsAt u L' := by
  induction nbs generalizing st with
  | nil => exact hv
  | cons nb rest ih =>
    rw [removeFromAll] at hv
    exact ((mem_nbrsAt_removeNbr st nb l h u L' v).1 (ih _ hv)).1

theorem foldRemove_fields (h : Nat) (ls : List Nat) (st : HNSWState) :
    (ls.foldl (fun s l => removeFromAll h l (s.nbrsAt h l) s) st).nodes = st.nodes ∧
    (ls.foldl (fun s l => removeFromAll h l (s.nbrsAt h l) s) st).enterPoint = st.enterPoint ∧
    (ls.foldl (fun s l => removeFromAll h l (s.nbrsAt h l) s) st).store.length = st.store.length := by
  induction ls generalizing st with
  | nil => exact ⟨rfl, rfl, rfl⟩
  | cons a rest ih =>
    rw [List.foldl_cons]
    rcases ih (removeFromAll h a (st.nbrsAt h a) st) with ⟨h1, h2, h3⟩
    rcases removeFromAll_fields h a (st.nbrsAt h a) st with ⟨f1, f2, f3⟩
    exact ⟨h1.trans f1, h2.trans f2, h3.trans f3⟩

theorem mem_nbrsAt_foldRemove_ne (h : Nat) (ls : List Nat) (st : HNSWState)
    (u L' v : Nat) (hv : v ≠ h) :
    v ∈ (ls.foldl (fun s l => removeFromAll h l (s.nbrsAt h l) s) st).nbrsAt u L' ↔
      v ∈ st.nbrsAt u L' := by
  induction ls generalizing st with
  | nil => exact Iff.rfl
  | cons a rest ih =>
    rw [List.foldl_cons, ih]
    exact mem_nbrsAt_removeFromAll_ne h a _ st u L' v hv

theorem mem_nbrsAt_foldRemove_subset (h : Nat) (ls : List Nat) (st : HNSWState)
    (u L' v : Nat)
    (hv : v ∈ (ls.foldl (fun s l => removeFromAll h l (s.nbrsAt h l) s) st).nbrsAt u L') :
    v ∈ st.nbrsAt u L' := by
  induction ls generalizing st with
  | nil => exact hv
  | cons a rest ih =>
    rw [List.foldl_cons] at hv
    exact mem_nbrsAt_removeFromAll_subset h a _ st u L' v (ih _ hv)

theorem FrameH_rollbackEdges (h : Nat) (st : HNSWState) :
    FrameH h st (rollbackEdges h st) := by
  unfold rollbackEdges
  rcases foldRemove_fields h (List.range ((st.node h).maxLayer + 1)) st with ⟨h1, h2, h3⟩
  exact ⟨h1, h2, h3, fun u L v _ hv => mem_nbrsAt_foldRemove_ne h _ st u L v hv⟩

theorem validRefs_rollbackEdges (h : Nat) (st : HNSWState) (hvr : ValidRefs st) :
    ValidRefs (rollbackEdges h st) := by
  intro u L v hv
  unfold rollbackEdges at hv ⊢
  rw [(foldRemove_fields h _ st).2.2]
  exact hvr u L v (mem_nbrsAt_foldRemove_subset h _ st u L v hv)

theorem validRefs_linkNeighbors (h L : Nat) (nbs : List Nat) (st : HNSWState)
    (hvr : ValidRefs st) (hh : h < st.store.length)
    (hnbs : ∀ nb ∈ nbs, nb < st.store.length) :
    ValidRefs (linkNeighbors h L nbs st) := by
  intro u L' v hv
  rw [(linkNeighbors_fields h L nbs st).2.2]
  rcases (mem_nbrsAt_linkNeighbors h L nbs st hh hnbs u L' v).1 hv with
    h1 | ⟨-, -, h3⟩ | ⟨-, h3, -⟩
  · exact hvr u L' v h1
  · exact hnbs v h3
  · exact h3 ▸ hh

theorem symH_linkNeighbors (h L : Nat) (nbs : List Nat) (st : HNSWState)
    (hh : h < st.store.length) (hnbs : ∀ nb ∈ nbs, nb < st.store.length)
    (hsym : SymH h st) : SymH h (linkNeighbors h L nbs st) := by
  intro v L'
  rw [mem_nbrsAt_linkNeighbors h L nbs st hh hnbs,
    mem_nbrsAt_linkNeighbors h L nbs st hh hnbs]
  have hs := hsym v L'
  tauto

/-! ## Supporting lemmas: the layer search -/

theorem reaches_valid {st : HNSWState} {layer : Nat} {eps : List Nat} {x : Nat}
    (hvr : ValidRefs st) (heps : ∀ e ∈ eps, e < st.store.length)
    (hr : Reaches st layer eps x) : x < st.store.length := by
  induction hr with
  | base h hm => exact heps h hm
  | step u v _ hv _ => exact hvr u layer v hv

theorem evict_subset (sc : String → String → Int) (st : HNSWState) (q : String)
    (ef : Nat) (W1 : List Nat) (x : Nat)
    (hx : x ∈ (if W1.length > ef then
        match find_furthest_element sc st q W1 with
        | some f => W1.erase f
        | none => W1
      else W1)) : x ∈ W1 := by
  by_cases hl : W1.length > ef
  · rw [if_pos hl] at hx
    cases hf : find_furthest_element sc st q W1 with
    | none => rw [hf] at hx; exact hx
    | some f => rw [hf] at hx; exact List.erase_subset _ _ hx
  · rwa [if_neg hl] at hx

theorem evict_length (sc : String → String → Int) (st : HNSWState) (q : String)
    (ef : Nat) (W1 : List Nat) (hne : W1 ≠ []) :
    (if W1.length > ef then
        match find_furthest_element sc st q W1 with
        | some f => W1.erase f
        | none => W1
      else W1).length ≤ max (W1.length - 1) ef := by
  by_cases hl : W1.length > ef
  · rw [if_pos hl]
    rcases @find_furthest_element_isSome sc st q W1 hne with ⟨f, hf⟩
    rw [hf, List.length_erase_of_mem (find_furthest_element_mem hf)]
    exact le_max_left _ _
  · rw [if_neg hl]
    exact le_max_of_le_right (Nat.le_of_not_lt hl)

theorem searchProcessNbrs_inv {sc : String → String → Int} {st : HNSWState}
    {q : String} {ef layer : Nat} {eps : List Nat} :
    ∀ (nlist : List Nat) (s : SearchSt),
    (∀ n ∈ nlist, Reaches st layer eps n) → SearchInv st layer eps s →
    SearchInv st layer eps (searchProcessNbrs sc st q ef nlist s)
  | [], s, _, hs => hs
  | n :: rest, s, hn, hs => by
    rw [searchProcessNbrs]
    by_cases hvis : n ∈ s.visited
    · rw [if_pos hvis]
      exact searchProcessNbrs_inv rest s (fun m hm => hn m (List.mem_cons_of_mem _ hm)) hs
    · rw [if_neg hvis]
      dsimp only
      split
      · apply searchProcessNbrs_inv rest _
          (fun m hm => hn m (List.mem_cons_of_mem _ hm))
        constructor
        · intro x hx
          have hx1 := evict_subset sc st q ef (s.W ++ [n]) x hx
          rcases List.mem_append.mp hx1 with h1 | h2
          · exact hs.1 x h1
          · rw [List.mem_singleton.mp h2]
            exact hn n (List.mem_cons_self n rest)
        · intro p hp
          rcases mem_heapPush hp with h1 | h2
          · exact hs.2 p h1
          · rw [h2]
            exact hn n (List.mem_cons_self n rest)
      · exact searchProcessNbrs_inv rest _
          (fun m hm => hn m (List.mem_cons_of_mem _ hm)) ⟨hs.1, hs.2⟩

theorem searchProcessNbrs_W_le {sc : String → String → Int} {st : HNSWState}
    {q : String} {ef : Nat} :
    ∀ (nlist : List Nat) (s : SearchSt),
    (searchProcessNbrs sc st q ef nlist s).W.length ≤ max s.W.length ef
  | [], s => le_max_left _ _
  | n :: rest, s => by
    rw [searchProcessNbrs]
    by_cases hvis : n ∈ s.visited
    · rw [if_pos hvis]
      exact searchProcessNbrs_W_le rest s
    · rw [if_neg hvis]
      dsimp only
      split
      · refine le_trans (searchProcessNbrs_W_le rest _) (max_le ?_ (le_max_right _ _))
        refine le_trans (evict_length sc st q ef (s.W ++ [n]) (by simp)) ?_
        have h1 : (s.W ++ [n]).length - 1 = s.W.length := by simp
        rw [h1]
      · exact searchProcessNbrs_W_le rest _

theorem searchLoop_reaches {sc : String → String → Int} {st : HNSWState}
    {q : String} {ef layer : Nat} {eps : List Nat} :
    ∀ (fuel : Nat) (s : SearchSt), SearchInv st layer eps s →
    ∀ x ∈ searchLoop sc st q ef layer fuel s, Reaches st layer eps x
  | 0, s, hs => hs.1
  | fuel + 1, s, hs => by
    rw [searchLoop]
    cases hc : s.cand with
    | nil => exact hs.1
    | cons p rest =>
      dsimp only
      split
      · exact hs.1
      · apply searchLoop_reaches fuel
        apply searchProcessNbrs_inv
        · intro m hm
          exact Reaches.step p.2 m (hs.2 p (hc ▸ List.mem_cons_self p rest)) hm
        · exact ⟨hs.1, fun x hx => hs.2 x (hc ▸ List.mem_cons_of_mem _ hx)⟩

theorem searchLoop_W_le {sc : String → String → Int} {st : HNSWState}
    {q : String} {ef layer : Nat} :
    ∀ (fuel : Nat) (s : SearchSt),
    (searchLoop sc st q ef layer fuel s).length ≤ max s.W.length ef
  | 0, _ => le_max_left _ _
  | fuel + 1, s => by
    rw [searchLoop]
    cases hc : s.cand with
    | nil => exact le_max_left _ _
    | cons p rest =>
      dsimp only
      split
      · exact le_max_left _ _
      · refine le_trans (searchLoop_W_le fuel _) (max_le ?_ (le_max_right _ _))
        exact le_trans (searchProcessNbrs_W_le _ _) (by exact max_le (le_max_left _ _) (le_max_right _ _))

theorem mem_foldl_heapPush {g : Nat → Int} {p : Int × Nat} :
    ∀ (l : List Nat) (c : List (Int × Nat)),
    p ∈ l.foldl (fun c h => heapPush c (g h, h)) c → p ∈ c ∨ p.2 ∈ l
  | [], c, hp => Or.inl hp
  | a :: t, c, hp => by
    rw [List.foldl_cons] at hp
    rcases mem_foldl_heapPush t _ hp with h1 | h2
    · rcases mem_heapPush h1 with h3 | h4
      · exact Or.inl h3
      · rw [h4]
        exact Or.inr (List.mem_cons_self a t)
    · exact Or.inr (List.mem_cons_of_mem _ h2)

theorem searchInit_inv (sc : String → String → Int) (st : HNSWState) (q : String)
    (eps : List Nat) (layer : Nat) :
    SearchInv st layer eps (searchInit sc st q eps) := by
  constructor
  · intro x hx
    exact Reaches.base x (dedupFirst_subset eps x hx)
  · intro p hp
    rcases mem_foldl_heapPush (dedupFirst eps) [] hp with h1 | h2
    · simp at h1
    · exact Reaches.base p.2 (dedupFirst_subset eps p.2 h2)

theorem search_layer_knn_reaches (sc : String → String → Int) (st : HNSWState)
    (q : String) (eps : List Nat) (ef layer : Nat) :
    ∀ x ∈ search_layer_knn sc st q eps ef layer, Reaches st layer eps x := by
  intro x hx
  exact searchLoop_reaches _ _ (searchInit_inv sc st q eps layer) x hx

theorem search_layer_knn_le (sc : String → String → Int) (st : HNSWState)
    (q : String) (eps : List Nat) (ef layer : Nat) :
    (search_layer_knn sc st q eps ef layer).length ≤ max (dedupFirst eps).length ef :=
  searchLoop_W_le _ _

theorem search_layer_knn_valid (sc : String → String → Int) (st : HNSWState)
    (q : String) (eps : List Nat) (ef layer : Nat)
    (hvr : ValidRefs st) (heps : ∀ e ∈ eps, e < st.store.length) :
    ∀ x ∈ search_layer_knn sc st q eps ef layer, x < st.store.length := by
  intro x hx
  exact reaches_valid hvr heps (search_layer_knn_reaches sc st q eps ef layer x hx)

/-! ## Supporting lemmas: neighbor selection -/

theorem select_neighbors_simple_subset {sc : String → String → Int}
    {st : HNSWState} {q : String} {cands : List Nat} {M : Nat} {x : Nat}
    (hx : x ∈ select_neighbors_simple sc st q cands M) : x ∈ cands := by
  unfold select_neighbors_simple at hx
  by_cases hs : !st.spatial
  · rw [if_pos hs] at hx
    exact mem_sortByScore (pyLastSlice_subset hx)
  · rw [if_neg hs] at hx
    exact mem_sortByScore (List.mem_of_mem_take hx)

theorem heurLoop_subset {sc : String → String → Int} {st : HNSWState}
    {q : String} {M : Nat} :
    ∀ (fuel : Nat) (w r d : List Nat),
    (∀ x ∈ (heurLoop sc st q M fuel w r d).1, x ∈ w ∨ x ∈ r ∨ x ∈ d) ∧
    (∀ x ∈ (heurLoop sc st q M fuel w r d).2.1, x ∈ w) ∧
    (∀ x ∈ (heurLoop sc st q M fuel w r d).2.2, x ∈ w ∨ x ∈ d)
  | 0, w, r, d =>
    ⟨fun x hx => Or.inr (Or.inl hx), fun _ hx => hx, fun x hx => Or.inr hx⟩
  | fuel + 1, w, r, d => by
    rw [heurLoop]
    by_cases hc : 0 < w.length ∧ r.length < M
    · rw [if_pos hc]
      cases he : find_nearest_element sc st q w with
      | none =>
        dsimp only
        exact ⟨fun x hx => Or.inr (Or.inl hx), fun _ hx => hx, fun x hx => Or.inr hx⟩
      | some e =>
        dsimp only
        have hew : e ∈ w := find_nearest_element_mem he
        by_cases hr0 : r.length = 0
        · rw [if_pos hr0]
          refine ⟨fun x hx => ?_, fun x hx => ?_, fun x hx => ?_⟩
          · rcases (heurLoop_subset fuel _ _ _).1 x hx with h1 | h2 | h3
            · exact Or.inl (List.erase_subset _ _ h1)
            · rcases List.mem_append.mp h2 with h4 | h5
              · exact Or.inr (Or.inl h4)
              · exact Or.inl (List.mem_singleton.mp h5 ▸ hew)
            · exact Or.inr (Or.inr h3)
          · exact List.erase_subset _ _ ((heurLoop_subset fuel _ _ _).2.1 x hx)
          · rcases (heurLoop_subset fuel _ _ _).2.2 x hx with h1 | h2
            · exact Or.inl (List.erase_subset _ _ h1)
            · exact Or.inr h2
        · rw [if_neg hr0]
          cases hrn : find_nearest_element sc st q r with
          | none =>
            dsimp only
            exact ⟨fun x hx => Or.inr (Or.inl hx), fun x hx => List.erase_subset _ _ hx,
              fun x hx => Or.inr hx⟩
          | some rNear =>
            dsimp only
            split
            · refine ⟨fun x hx => ?_, fun x hx => ?_, fun x hx => ?_⟩
              · rcases (heurLoop_subset fuel _ _ _).1 x hx with h1 | h2 | h3
                · exact Or.inl (List.erase_subset _ _ h1)
                · rcases List.mem_append.mp h2 with h4 | h5
                  · exact Or.inr (Or.inl h4)
                  · exact Or.inl (List.mem_singleton.mp h5 ▸ hew)
                · exact Or.inr (Or.inr h3)
              · exact List.erase_subset _ _ ((heurLoop_subset fuel _ _ _).2.1 x hx)
              · rcases (heurLoop_subset fuel _ _ _).2.2 x hx with h1 | h2
                · exact Or.inl (List.erase_subset _ _ h1)
                · exact Or.inr h2
            · refine ⟨fun x hx => ?_, fun x hx => ?_, fun x hx => ?_⟩
              · rcases (heurLoop_subset fuel _ _ _).1 x hx with h1 | h2 | h3
                · exact Or.inl (List.erase_subset _ _ h1)
                · exact Or.inr (Or.inl h2)
                · rcases List.mem_append.mp h3 with h4 | h5
                  · exact Or.inr (Or.inr h4)
                  · exact Or.inl (List.mem_singleton.mp h5 ▸ hew)
              · exact List.erase_subset _ _ ((heurLoop_subset fuel _ _ _).2.1 x hx)
              · rcases (heurLoop_subset fuel _ _ _).2.2 x hx with h1 | h2
                · exact Or.inl (List.erase_subset _ _ h1)
                · rcases List.mem_append.mp h2 with h4 | h5
                  · exact Or.inr h4
                  · exact Or.inl (List.mem_singleton.mp h5 ▸ hew)
    · rw [if_neg hc]
      exact ⟨fun x hx => Or.inr (Or.inl hx), fun _ hx => hx, fun x hx => Or.inr hx⟩

theorem heurDrain_subset {sc : String → String → Int} {st : HNSWState}
    {q : String} {M : Nat} :
    ∀ (fuel : Nat) (d r : List Nat),
    ∀ x ∈ (heurDrain sc st q M fuel d r).1, x ∈ d ∨ x ∈ r
  | 0, d, r, x, hx => Or.inr hx
  | fuel + 1, d, r, x, hx => by
    rw [heurDrain] at hx
    by_cases hc : 0 < d.length ∧ r.length < M
    · rw [if_pos hc] at hx
      cases he : find_nearest_element sc st q d with
      | none => rw [he] at hx; exact Or.inr hx
      | some e =>
        rw [he] at hx
        rcases heurDrain_subset fuel _ _ x hx with h1 | h2
        · exact Or.inl (List.erase_subset _ _ h1)
        · rcases List.mem_append.mp h2 with h3 | h4
          · exact Or.inr h3
          · exact Or.inl (List.mem_singleton.mp h4 ▸ find_nearest_element_mem he)
    · rw [if_neg hc] at hx
      exact Or.inr hx

theorem select_neighbors_subset {sc : String → String → Int} {st : HNSWState}
    {q : String} {cands : List Nat} {M layer : Nat} {r w : List Nat}
    (h : select_neighbors sc st q cands M layer = .ok (r, w)) :
    (∀ x ∈ r, x ∈ cands) ∧ (∀ x ∈ w, x ∈ cands) := by
  unfold select_neighbors at h
  by_cases hh : !st.heuristic
  · rw [if_pos hh] at h
    injection h with h1
    injection h1 with h2 h3
    subst h2; subst h3
    exact ⟨fun x hx => select_neighbors_simple_subset hx, fun _ hx => hx⟩
  · rw [if_neg hh] at h
    unfold select_neighbors_heuristics at h
    by_cases hfr : st.extendCandidates && heurFreshExists st layer cands
    · rw [if_pos hfr] at h
      exact absurd h (by simp)
    · rw [if_neg hfr] at h
      dsimp only at h
      by_cases hk : st.keepPrunedConns
      · rw [if_pos hk] at h
        injection h with h1
        injection h1 with h2 h3
        subst h2; subst h3
        constructor
        · intro x hx
          rcases heurDrain_subset _ _ _ x hx with h1 | h2
          · rcases (heurLoop_subset cands.length cands [] []).2.2 x h1 with h3 | h4
            · exact h3
            · simp at h4
          · rcases (heurLoop_subset cands.length cands [] []).1 x h2 with h3 | h4 | h5
            · exact h3
            · simp at h4
            · simp at h5
        · exact fun x hx => (heurLoop_subset cands.length cands [] []).2.1 x hx
      · rw [if_neg hk] at h
        injection h with h1
        injection h1 with h2 h3
        subst h2; subst h3
        constructor
        · intro x hx
          rcases (heurLoop_subset cands.length cands [] []).1 x hx with h3 | h4 | h5
          · exact h3
          · simp at h4
          · simp at h5
        · exact fun x hx => (heurLoop_subset cands.length cands [] []).2.1 x hx

/-! ## Supporting lemmas: descent -/

theorem descendSteps_valid (sc : String → String → Int) (st : HNSWState)
    (q : String) (target : Nat) (hvr : ValidRefs st) :
    ∀ (k ep : Nat), ep < st.store.length →
    descendSteps sc st q target k ep < st.store.length
  | 0, ep, hep => hep
  | k + 1, ep, hep => by
    rw [descendSteps]
    apply descendSteps_valid sc st q target hvr k
    dsimp only
    split
    · split
      · cases hf : find_nearest_element sc st q
          (search_layer_knn sc st q [ep] 1 (target + k + 1)) with
        | none => simpa using hep
        | some x =>
          simp only [Option.getD_some]
          apply search_layer_knn_valid sc st q [ep] 1 (target + k + 1) hvr
            (by intro e he; rw [List.mem_singleton.mp he]; exact hep)
          exact find_nearest_element_mem hf
      · exact hep
    · exact hep

/-! ## Supporting lemmas: the `_nodes` dictionary and graph handles -/

theorem mem_foldr_append {l : List (Nat × List Nat)} {u : Nat} :
    u ∈ l.foldr (fun p acc => p.2 ++ acc) [] ↔ ∃ p ∈ l, u ∈ p.2 := by
  induction l with
  | nil => simp
  | cons a t ih => simp [List.mem_append, ih]

theorem mem_foldr_dictInsert (nodes : List (Nat × List Nat)) (layer h u : Nat) :
    u ∈ (dictInsert nodes layer h).foldr (fun p acc => p.2 ++ acc) [] ↔
      u ∈ nodes.foldr (fun p acc => p.2 ++ acc) [] ∨ u = h := by
  induction nodes with
  | nil => simp [dictInsert]
  | cons a t ih =>
    obtain ⟨k, v⟩ := a
    rw [dictInsert]
    by_cases hk : k = layer
    · rw [if_pos hk]
      simp only [List.foldr_cons, List.mem_append, List.mem_cons, List.mem_singleton]
      tauto
    · rw [if_neg hk]
      simp only [List.foldr_cons, List.mem_append, ih]
      tauto

theorem mem_graphHandles_insertNodeDict (st : HNSWState) (h L u : Nat) :
    u ∈ graphHandles (insertNodeDict st h L) ↔ u ∈ graphHandles st ∨ u = h :=
  mem_foldr_dictInsert st.nodes L h u

theorem graphHandles_eq_of_nodes_eq {s t : HNSWState} (h : t.nodes = s.nodes) :
    graphHandles t = graphHandles s := by
  unfold graphHandles
  rw [h]

theorem mem_nodesAt_dictInsert {nodes : List (Nat × List Nat)}
    {layer h L' u : Nat} (hu : u ∈ (nodes.lookup L').getD []) :
    u ∈ ((dictInsert nodes layer h).lookup L').getD [] := by
  induction nodes with
  | nil => simp at hu
  | cons a t ih =>
    obtain ⟨k, v⟩ := a
    rw [dictInsert]
    by_cases hk : k = layer
    · rw [if_pos hk]
      by_cases hL : (L' == k) = true
      · simp only [List.lookup, hL] at hu ⊢
        simp only [Option.getD_some] at hu ⊢
        exact List.mem_append_left _ hu
      · simp only [List.lookup, hL] at hu ⊢
        simpa using hu
    · rw [if_neg hk]
      by_cases hL : (L' == k) = true
      · simp only [List.lookup, hL] at hu ⊢
        exact hu
      · simp only [List.lookup, hL] at hu ⊢
        exact ih hu

/-! ## Supporting lemmas: store append and state assembly -/

theorem getD_replicate_nil (n i : Nat) :
    (List.replicate n ([] : List Nat)).getD i [] = [] := by
  rw [List.getD_eq_getElem?_getD, List.getElem?_replicate]
  split <;> rfl

theorem node_append_lt (st : HNSWState) (nd : Node) (u : Nat)
    (hu : u < st.store.length) :
    ({ st with store := st.store ++ [nd] } : HNSWState).node u = st.node u := by
  unfold HNSWState.node
  dsimp only
  rw [List.getElem?_append, if_pos hu]

theorem node_append_self (st : HNSWState) (nd : Node) :
    ({ st with store := st.store ++ [nd] } : HNSWState).node st.store.length = nd := by
  unfold HNSWState.node
  dsimp only
  rw [List.getElem?_append_right (le_refl _)]
  simp

theorem nbrsAt_append_replicate (st : HNSWState) (hid : String) (alg L : Nat)
    (u L' : Nat) :
    ({ st with store := st.store ++ [⟨hid, alg, L, List.replicate (L + 1) []⟩] } :
      HNSWState).nbrsAt u L' = st.nbrsAt u L' := by
  unfold HNSWState.nbrsAt HNSWState.node
  dsimp only
  rw [List.getElem?_append]
  by_cases hu : u < st.store.length
  · rw [if_pos hu]
  · rw [if_neg hu]
    have h1 : st.store[u]? = none := List.getElem?_eq_none (Nat.le_of_not_lt hu)
    rw [h1]
    by_cases h2 : u - st.store.length = 0
    · rw [h2]
      simp [Node.nbrsAt, getD_replicate_nil]
    · have h3 : ([(⟨hid, alg, L, List.replicate (L + 1) []⟩ : Node)] :
          List Node)[u - st.store.length]? = none := by
        rw [List.getElem?_eq_none]
        simp only [List.length_singleton]
        omega
      rw [h3]

theorem Sym_assemble {stA stf : HNSWState} {h : Nat}
    (hGH : ∀ u, u ∈ graphHandles stf ↔ (u ∈ graphHandles stA ∨ u = h))
    (hframe : ∀ u L v, u ≠ h → v ≠ h → (v ∈ stf.nbrsAt u L ↔ v ∈ stA.nbrsAt u L))
    (hsymH : SymH h stf) (hsymA : Sym stA)
    (hne : ∀ u ∈ graphHandles stA, u ≠ h) : Sym stf := by
  intro u hu v hv L
  rcases (hGH u).1 hu with huA | huh
  · rcases (hGH v).1 hv with hvA | hvh
    · rw [hframe u L v (hne u huA) (hne v hvA), hframe v L u (hne v hvA) (hne u huA)]
      exact hsymA u huA v hvA L
    · subst hvh
      exact (hsymH u L).symm
  · subst huh
    exact hsymH v L

theorem Sym_of_frame {stA stf : HNSWState} {h : Nat}
    (hGH : ∀ u, u ∈ graphHandles stf ↔ u ∈ graphHandles stA)
    (hframe : ∀ u L v, u ≠ h → v ≠ h → (v ∈ stf.nbrsAt u L ↔ v ∈ stA.nbrsAt u L))
    (hsymA : Sym stA) (hne : ∀ u ∈ graphHandles stA, u ≠ h) : Sym stf := by
  intro u hu v hv L
  have huA := (hGH u).1 hu
  have hvA := (hGH v).1 hv
  rw [hframe u L v (hne u huA) (hne v hvA), hframe v L u (hne v hvA) (hne u huA)]
  exact hsymA u huA v hvA L

/-! ## Supporting lemmas: the insertion sweep -/

theorem insertLayerStep_spec (sc : String → String → Int) (h layer : Nat)
    (eps : List Nat) (st : HNSWState) (hh : h < st.store.length)
    (hvr : ValidRefs st) (heps : ∀ e ∈ eps, e < st.store.length)
    (hsym : SymH h st) :
    FrameH h st (insertLayerStep sc h layer eps st).state ∧
    ValidRefs (insertLayerStep sc h layer eps st).state ∧
    (∀ wm st1, insertLayerStep sc h layer eps st = .ok wm st1 →
      SymH h st1 ∧ ∀ x ∈ wm, x < st.store.length) := by
  unfold insertLayerStep
  dsimp only
  split
  · exact ⟨FrameH_refl h st, hvr, fun wm st1 hcon => PyRes.noConfusion hcon⟩
  · rename_i nn wm0 heq
    have hW := search_layer_knn_valid sc st (st.node h).hid eps st.ef layer hvr heps
    have hsub := select_neighbors_subset heq
    have hnn : ∀ x ∈ nn, x < st.store.length := fun x hx => hW x (hsub.1 x hx)
    have hwm : ∀ x ∈ wm0, x < st.store.length := fun x hx => hW x (hsub.2 x hx)
    split
    · split
      · exact ⟨FrameH_rollbackEdges h st, validRefs_rollbackEdges h st hvr,
          fun wm st1 hcon => PyRes.noConfusion hcon⟩
      · exact ⟨FrameH_refl h st, hvr, fun wm st1 hcon => PyRes.noConfusion hcon⟩
    · have hfr1 : FrameH h st (linkNeighbors h layer nn st) :=
        FrameH_linkNeighbors h layer nn st
      have hvr1 : ValidRefs (linkNeighbors h layer nn st) :=
        validRefs_linkNeighbors h layer nn st hvr hh hnn
      have hsym1 : SymH h (linkNeighbors h layer nn st) :=
        symH_linkNeighbors h layer nn st hh hnn hsym
      split
      · exact ⟨hfr1, hvr1, fun wm st1 hcon => PyRes.noConfusion hcon⟩
      · refine ⟨hfr1, hvr1, ?_⟩
        intro wm st1 hcon
        injection hcon with h1 h2
        subst h1
        subst h2
        exact ⟨hsym1, hwm⟩

theorem insertLoop_spec (sc : String → String → Int) (h : Nat) :
    ∀ (layer : Nat) (eps : List Nat) (st : HNSWState),
    h < st.store.length → ValidRefs st → (∀ e ∈ eps, e < st.store.length) →
    SymH h st →
    FrameH h st (insertLoop sc h layer eps st).state ∧
    ValidRefs (insertLoop sc h layer eps st).state ∧
    ((insertLoop sc h layer eps st).isOk = true →
      SymH h (insertLoop sc h layer eps st).state)
  | 0, eps, st, hh, hvr, heps, hsym => by
    rw [insertLoop]
    have hstep := insertLayerStep_spec sc h 0 eps st hh hvr heps hsym
    cases hs : insertLayerStep sc h 0 eps st with
    | err e st1 =>
      rw [hs] at hstep
      simp only [PyRes.state] at hstep
      dsimp only
      exact ⟨hstep.1, hstep.2.1, by intro hc; simp [PyRes.isOk] at hc⟩
    | ok wm st1 =>
      rw [hs] at hstep
      simp only [PyRes.state] at hstep
      dsimp only
      exact ⟨hstep.1, hstep.2.1, fun _ => (hstep.2.2 wm st1 rfl).1⟩
  | l + 1, eps, st, hh, hvr, heps, hsym => by
    rw [insertLoop]
    have hstep := insertLayerStep_spec sc h (l + 1) eps st hh hvr heps hsym
    cases hs : insertLayerStep sc h (l + 1) eps st with
    | err e st1 =>
      rw [hs] at hstep
      simp only [PyRes.state] at hstep
      dsimp only
      exact ⟨hstep.1, hstep.2.1, by intro hc; simp [PyRes.isOk] at hc⟩
    | ok wm st1 =>
      rw [hs] at hstep
      simp only [PyRes.state] at hstep
      dsimp only
      obtain ⟨hsym1, hwm⟩ := hstep.2.2 wm st1 rfl
      have hlen1 : st1.store.length = st.store.length := hstep.1.2.2.1
      have hrec := insertLoop_spec sc h l (eps ++ wm) st1
        (by rw [hlen1]; exact hh) hstep.2.1
        (by
          intro e he
          rw [hlen1]
          rcases List.mem_append.mp he with h1 | h2
          · exact heps e h1
          · exact hwm e h2)
        hsym1
      exact ⟨FrameH_trans hstep.1 hrec.1, hrec.2.1, hrec.2.2⟩

theorem insert_node_to_layers_spec (sc : String → String → Int) (h : Nat)
    (eps : List Nat) (st : HNSWState) (hh : h < st.store.length)
    (hvr : ValidRefs st) (heps : ∀ e ∈ eps, e < st.store.length)
    (hsym : SymH h st) :
    FrameH h st (insert_node_to_layers sc h eps st).state ∧
    ValidRefs (insert_node_to_layers sc h eps st).state ∧
    ((insert_node_to_layers sc h eps st).isOk = true →
      SymH h (insert_node_to_layers sc h eps st).state) := by
  unfold insert_node_to_layers
  cases hep : st.enterPoint with
  | none =>
    exact ⟨FrameH_refl h st, hvr, by intro hc; simp [PyRes.isOk] at hc⟩
  | some e =>
    exact insertLoop_spec sc h _ eps st hh hvr heps hsym

/-! ## Supporting lemmas: whole-operation invariant preservation -/

theorem nbrsAt_out (st : HNSWState) (u L' : Nat) (hu : st.store.length ≤ u) :
    st.nbrsAt u L' = [] := by
  unfold HNSWState.nbrsAt HNSWState.node
  rw [List.getElem?_eq_none hu]
  rfl

theorem insertNodeDict_nbrsAt (st : HNSWState) (h L u L' : Nat) :
    (insertNodeDict st h L).nbrsAt u L' = st.nbrsAt u L' := rfl

theorem insertNodeDict_store (st : HNSWState) (h L : Nat) :
    (insertNodeDict st h L).store = st.store := rfl

theorem insertNodeDict_enterPoint (st : HNSWState) (h L : Nat) :
    (insertNodeDict st h L).enterPoint = st.enterPoint := rfl

theorem Inv_of_frame {st0 st1 : HNSWState} {h : Nat}
    (hsym0 : Sym st0) (hvr0 : ValidRefs st0) (hvh0 : ValidHandles st0)
    (hvep0 : ValidEp st0)
    (hfr : FrameH h st0 st1) (hvr1 : ValidRefs st1)
    (hne : ∀ u ∈ graphHandles st0, u ≠ h) : Inv st1 := by
  have hGH : graphHandles st1 = graphHandles st0 := graphHandles_eq_of_nodes_eq hfr.1
  refine ⟨?_, hvr1, ?_, ?_⟩
  · exact Sym_of_frame (fun u => by rw [hGH]) hfr.2.2.2 hsym0 hne
  · intro u hu
    rw [hfr.2.2.1]
    exact hvh0 u (hGH ▸ hu)
  · intro e he
    rw [hfr.2.2.1]
    exact hvep0 e (hfr.2.1 ▸ he)

theorem Inv_after_success {st0 st1 : HNSWState} {h : Nat}
    (hsym0 : Sym st0) (hvr0 : ValidRefs st0) (hvh0 : ValidHandles st0)
    (hvep0 : ValidEp st0) (hh : h < st0.store.length)
    (hfr : FrameH h st0 st1) (hsymH : SymH h st1)
    (hne : ∀ u ∈ graphHandles st0, u ≠ h) (hvr1 : ValidRefs st1)
    (stf : HNSWState)
    (hfnb : ∀ u L', stf.nbrsAt u L' = st1.nbrsAt u L')
    (hflen : stf.store.length = st1.store.length)
    (hfGH : ∀ u, u ∈ graphHandles stf ↔ (u ∈ graphHandles st1 ∨ u = h))
    (hfep : stf.enterPoint = st1.enterPoint ∨ stf.enterPoint = some h) :
    Inv stf := by
  have hGH1 : graphHandles st1 = graphHandles st0 := graphHandles_eq_of_nodes_eq hfr.1
  have hlen1 : st1.store.length = st0.store.length := hfr.2.2.1
  refine ⟨?_, ?_, ?_, ?_⟩
  · refine @Sym_assemble st0 stf h ?_ ?_ ?_ hsym0 hne
    · intro u
      rw [hfGH u, hGH1]
    · intro u L v hu hv
      rw [hfnb]
      exact hfr.2.2.2 u L v hu hv
    · intro v L
      rw [hfnb, hfnb]
      exact hsymH v L
  · intro u L v hv
    rw [hfnb] at hv
    rw [hflen]
    exact hvr1 u L v hv
  · intro u hu
    rw [hflen, hlen1]
    rcases (hfGH u).1 hu with h1 | h2
    · exact hvh0 u (hGH1 ▸ h1)
    · exact h2 ▸ hh
  · intro e he
    rw [hflen, hlen1]
    rcases hfep with h1 | h2
    · exact hvep0 e (hfr.2.1 ▸ (h1 ▸ he))
    · rw [h2] at he
      injection he with he1
      exact he1 ▸ hh

theorem Inv_append (st : HNSWState) (hid : String) (alg L : Nat)
    (hsym : Sym st) (hvr : ValidRefs st) (hvh : ValidHandles st)
    (hvep : ValidEp st) :
    Sym ({ st with store := st.store ++ [⟨hid, alg, L, List.replicate (L + 1) []⟩] }) ∧
    ValidRefs ({ st with store := st.store ++ [⟨hid, alg, L, List.replicate (L + 1) []⟩] }) ∧
    ValidHandles ({ st with store := st.store ++ [⟨hid, alg, L, List.replicate (L + 1) []⟩] }) ∧
    ValidEp ({ st with store := st.store ++ [⟨hid, alg, L, List.replicate (L + 1) []⟩] }) ∧
    SymH st.store.length
      ({ st with store := st.store ++ [⟨hid, alg, L, List.replicate (L + 1) []⟩] }) ∧
    (∀ u ∈ graphHandles
      ({ st with store := st.store ++ [⟨hid, alg, L, List.replicate (L + 1) []⟩] } : HNSWState),
      u ≠ st.store.length) := by
  have hnb := nbrsAt_append_replicate st hid alg L
  have hGH : graphHandles
      ({ st with store := st.store ++ [⟨hid, alg, L, List.replicate (L + 1) []⟩] } : HNSWState) =
      graphHandles st := graphHandles_eq_of_nodes_eq rfl
  have hlen : ({ st with store := st.store ++ [⟨hid, alg, L, List.replicate (L + 1) []⟩] } :
      HNSWState).store.length = st.store.length + 1 := by
    simp
  refine ⟨?_, ?_, ?_, ?_, ?_, ?_⟩
  · intro u hu v hv Lx
    rw [hnb, hnb]
    exact hsym u (hGH ▸ hu) v (hGH ▸ hv) Lx
  · intro u Lx v hv
    rw [hnb] at hv
    rw [hlen]
    exact Nat.lt_succ_of_lt (hvr u Lx v hv)
  · intro u hu
    rw [hlen]
    exact Nat.lt_succ_of_lt (hvh u (hGH ▸ hu))
  · intro e he
    rw [hlen]
    exact Nat.lt_succ_of_lt (hvep e he)
  · intro v Lx
    rw [hnb, hnb, nbrsAt_out st _ Lx (le_refl _)]
    constructor
    · intro hv
      simp at hv
    · intro hv
      exact absurd (hvr v Lx _ hv) (lt_irrefl _)
  · intro u hu
    exact Nat.ne_of_lt (hvh u (hGH ▸ hu))

theorem descend_to_layer_valid {sc : String → String → Int} {st : HNSWState}
    {q : String} {target ep1 : Nat} (hvr : ValidRefs st) (hvep : ValidEp st)
    (h : descend_to_layer sc st q target = .ok ep1) : ep1 < st.store.length := by
  unfold descend_to_layer at h
  cases hep : st.enterPoint with
  | none =>
    rw [hep] at h
    exact absurd h (by simp)
  | some e =>
    rw [hep] at h
    dsimp only at h
    injection h with h1
    exact h1 ▸ descendSteps_valid sc st q target hvr _ e (hvep e hep)

theorem add_node_inv (sc : String → String → Int) (st : HNSWState)
    (hid : String) (alg L : Nat) (hInv : Inv st) :
    Inv (add_node sc st hid alg L).state := by
  obtain ⟨hsym, hvr, hvh, hvep⟩ := hInv
  obtain ⟨hsym0, hvr0, hvh0, hvep0, hsymH0, hne0⟩ :=
    Inv_append st hid alg L hsym hvr hvh hvep
  have hh0 : st.store.length <
      ({ st with store := st.store ++ [⟨hid, alg, L, List.replicate (L + 1) []⟩] } :
        HNSWState).store.length := by
    simp
  rw [add_node]
  dsimp only
  split
  · exact ⟨hsym0, hvr0, hvh0, hvep0⟩
  · split
    · rename_i e heq
      split
      · exact ⟨hsym0, hvr0, hvh0, hvep0⟩
      · split
        · exact ⟨hsym0, hvr0, hvh0, hvep0⟩
        · rename_i ep1 heqd
          have hep1 : ep1 <
              ({ st with store := st.store ++ [⟨hid, alg, L, List.replicate (L + 1) []⟩] } :
                HNSWState).store.length := descend_to_layer_valid hvr0 hvep0 heqd
          have heps1 : ∀ x ∈ [ep1], x <
              ({ st with store := st.store ++ [⟨hid, alg, L, List.replicate (L + 1) []⟩] } :
                HNSWState).store.length := by
            intro x hx
            rw [List.mem_singleton.mp hx]
            exact hep1
          split
          · rename_i er st1 heqi
            have hspec := insert_node_to_layers_spec sc st.store.length [ep1] _
              hh0 hvr0 heps1 hsymH0
            rw [heqi] at hspec
            exact Inv_of_frame hsym0 hvr0 hvh0 hvep0 hspec.1 hspec.2.1 hne0
          · rename_i uu st1 heqi
            have hspec := insert_node_to_layers_spec sc st.store.length [ep1] _
              hh0 hvr0 heps1 hsymH0
            rw [heqi] at hspec
            have hsymH1 := hspec.2.2 rfl
            split
            · exact Inv_after_success hsym0 hvr0 hvh0 hvep0 hh0 hspec.1
                (fun v Lx => hsymH1 v Lx) hne0 hspec.2.1 _
                (fun u L' => rfl) rfl
                (fun u => mem_graphHandles_insertNodeDict _ st.store.length L u)
                (Or.inr rfl)
            · exact Inv_after_success hsym0 hvr0 hvh0 hvep0 hh0 hspec.1
                (fun v Lx => hsymH1 v Lx) hne0 hspec.2.1 _
                (fun u L' => rfl) rfl
                (fun u => mem_graphHandles_insertNodeDict _ st.store.length L u)
                (Or.inl rfl)
    · exact Inv_after_success hsym0 hvr0 hvh0 hvep0 hh0
        (FrameH_refl _ _) hsymH0 hne0 hvr0 _
        (fun u L' => rfl) rfl
        (fun u => mem_graphHandles_insertNodeDict _ st.store.length L u)
        (Or.inr rfl)

theorem delete_node_state (sc : String → String → Int) (st : HNSWState)
    (hid : String) (alg : Nat) :
    (delete_node sc st hid alg).state = st ∧
    (delete_node sc st hid alg).isOk = false := by
  unfold delete_node
  split
  · exact ⟨rfl, rfl⟩
  · split
    · exact ⟨rfl, rfl⟩
    · exact ⟨rfl, rfl⟩

theorem insertLayerStep_frame (sc : String → String → Int) (h layer : Nat)
    (eps : List Nat) (st : HNSWState) :
    FrameH h st (insertLayerStep sc h layer eps st).state := by
  unfold insertLayerStep
  dsimp only
  split
  · exact FrameH_refl h st
  · rename_i nn wm heq
    split
    · split
      · exact FrameH_rollbackEdges h st
      · exact FrameH_refl h st
    · split
      · exact FrameH_linkNeighbors h layer nn st
      · exact FrameH_linkNeighbors h layer nn st

theorem insertLoop_frame (sc : String → String → Int) (h : Nat) :
    ∀ (layer : Nat) (eps : List Nat) (st : HNSWState),
    FrameH h st (insertLoop sc h layer eps st).state
  | 0, eps, st => by
    rw [insertLoop]
    have hstep := insertLayerStep_frame sc h 0 eps st
    cases hs : insertLayerStep sc h 0 eps st with
    | err e st1 =>
      rw [hs] at hstep
      exact hstep
    | ok wm st1 =>
      rw [hs] at hstep
      exact hstep
  | l + 1, eps, st => by
    rw [insertLoop]
    have hstep := insertLayerStep_frame sc h (l + 1) eps st
    cases hs : insertLayerStep sc h (l + 1) eps st with
    | err e st1 =>
      rw [hs] at hstep
      exact hstep
    | ok wm st1 =>
      rw [hs] at hstep
      simp only [PyRes.state] at hstep
      exact FrameH_trans hstep (insertLoop_frame sc h l (eps ++ wm) st1)

theorem insert_node_to_layers_frame (sc : String → String → Int) (h : Nat)
    (eps : List Nat) (st : HNSWState) :
    FrameH h st (insert_node_to_layers sc h eps st).state := by
  unfold insert_node_to_layers
  cases hep : st.enterPoint with
  | none => exact FrameH_refl h st
  | some e => exact insertLoop_frame sc h _ eps st

theorem add_node_nodes (sc : String → String → Int) (st : HNSWState)
    (hid : String) (alg L : Nat) :
    (add_node sc st hid alg L).state.nodes = st.nodes ∨
    ∃ h2, (add_node sc st hid alg L).state.nodes = dictInsert st.nodes L h2 := by
  rw [add_node]
  dsimp only
  split
  · exact Or.inl rfl
  · split
    · rename_i e heq
      split
      · exact Or.inl rfl
      · split
        · exact Or.inl rfl
        · rename_i ep1 heqd
          split
          · rename_i er st1 heqi
            have hfr := insert_node_to_layers_frame sc st.store.length [ep1]
              { st with store := st.store ++ [⟨hid, alg, L, List.replicate (L + 1) []⟩] }
            rw [heqi] at hfr
            exact Or.inl hfr.1
          · rename_i uu st1 heqi
            have hfr := insert_node_to_layers_frame sc st.store.length [ep1]
              { st with store := st.store ++ [⟨hid, alg, L, List.replicate (L + 1) []⟩] }
            rw [heqi] at hfr
            simp only [PyRes.state] at hfr
            refine Or.inr ⟨st.store.length, ?_⟩
            split
            · show dictInsert st1.nodes L st.store.length = dictInsert st.nodes L _
              rw [hfr.1]
            · show dictInsert st1.nodes L st.store.length = dictInsert st.nodes L _
              rw [hfr.1]
    · exact Or.inr ⟨st.store.length, rfl⟩

theorem mem_nodesAt_applyOp (sc : String → String → Int) (st : HNSWState)
    (op : Op) (L u : Nat) (hu : u ∈ nodesAt st L) :
    u ∈ nodesAt (applyOp sc st op) L := by
  cases op with
  | del hid alg =>
    unfold applyOp
    dsimp only
    rw [(delete_node_state sc st hid alg).1]
    exact hu
  | add hid alg layer =>
    unfold applyOp
    dsimp only
    unfold nodesAt at hu ⊢
    rcases add_node_nodes sc st hid alg layer with h1 | ⟨h2, h3⟩
    · rw [h1]
      exact hu
    · rw [h3]
      exact mem_nodesAt_dictInsert hu

theorem mkHNSW_inv (M Mmax Mmax0 ef : Nat) (hr ext keep spatial : Bool)
    (tag : Nat) : Inv (mkHNSW M Mmax Mmax0 ef hr ext keep spatial tag) := by
  refine ⟨?_, ?_, ?_, ?_⟩
  · intro u hu
    simp [graphHandles, mkHNSW] at hu
  · intro u L v hv
    simp [HNSWState.nbrsAt, HNSWState.node, mkHNSW, Node.nbrsAt] at hv
  · intro u hu
    simp [graphHandles, mkHNSW] at hu
  · intro e he
    simp [mkHNSW] at he

theorem applyOp_inv (sc : String → String → Int) (st : HNSWState) (op : Op)
    (h : Inv st) : Inv (applyOp sc st op) := by
  cases op with
  | add hid alg layer => exact add_node_inv sc st hid alg layer h
  | del hid alg =>
    unfold applyOp
    dsimp only
    rw [(delete_node_state sc st hid alg).1]
    exact h

theorem runOps_inv (sc : String → String → Int) :
    ∀ (ops : List Op) (st : HNSWState), Inv st → Inv (runOps sc st ops)
  | [], st, h => h
  | op :: rest, st, h => by
    rw [runOps]
    exact runOps_inv sc rest _ (applyOp_inv sc st op h)

theorem heurLoop_w_le {sc : String → String → Int} {st : HNSWState}
    {q : String} {M : Nat} :
    ∀ (fuel : Nat) (w r d : List Nat),
    (heurLoop sc st q M fuel w r d).2.1.length ≤ w.length
  | 0, _, _, _ => le_refl _
  | fuel + 1, w, r, d => by
    rw [heurLoop]
    by_cases hc : 0 < w.length ∧ r.length < M
    · rw [if_pos hc]
      cases he : find_nearest_element sc st q w with
      | none => exact le_refl _
      | some e =>
        dsimp only
        have hle : (w.erase e).length ≤ w.length := List.length_erase_le _ _
        by_cases hr0 : r.length = 0
        · rw [if_pos hr0]
          exact le_trans (heurLoop_w_le fuel _ _ _) hle
        · rw [if_neg hr0]
          cases hrn : find_nearest_element sc st q r with
          | none => exact hle
          | some rNear =>
            dsimp only
            split
            · exact le_trans (heurLoop_w_le fuel _ _ _) hle
            · exact le_trans (heurLoop_w_le fuel _ _ _) hle
    · rw [if_neg hc]

theorem heurLoop_w_lt (sc : String → String → Int) (st : HNSWState)
    (q : String) (M : Nat) (fuel : Nat) (w d : List Nat)
    (hw : w ≠ []) (hM : 0 < M) :
    (heurLoop sc st q M (fuel + 1) w [] d).2.1.length < w.length := by
  rw [heurLoop]
  rw [if_pos ⟨List.length_pos.mpr hw, by simpa using hM⟩]
  obtain ⟨e, he⟩ := @find_nearest_element_isSome sc st q w hw
  rw [he]
  dsimp only
  rw [if_pos (show ([] : List Nat).length = 0 from rfl)]
  have h1 : (w.erase e).length = w.length - 1 :=
    List.length_erase_of_mem (find_nearest_element_mem he)
  have h2 := @heurLoop_w_le sc st q M fuel (w.erase e) ([] ++ [e]) d
  have h3 : 0 < w.length := List.length_pos.mpr hw
  omega

/-! ## Claim theorems -/

set_option maxRecDepth 100000

/-- C1: the spec claims the candidates min-heap of `_search_layer_knn` is
keyed by `sign * score` with `sign = -1` for similarity metrics and `+1`
for spatial ones, so that the smallest key is always the closest.  The
source sets `queue_multiplier = 1` for similarity and `-1` for spatial
metrics — the exact opposite — so the smallest key is the farthest
candidate: seeding the queue for a similarity metric with two enter points
scoring 10 (closer) and 5 (farther) against the query places the farther
node at the heap head, the one the loop pops first as `closest_node`. -/
theorem C1_similarity_heap_pops_farthest :
    queue_multiplier false = 1 ∧ queue_multiplier true = -1 ∧
    scoreTo simScore simGraph "Q" 0 = 10 ∧ scoreTo simScore simGraph "Q" 1 = 5 ∧
    (n2CloserThanN1 simScore simGraph "Q" 1 0).1 = true ∧
    (searchInit simScore simGraph "Q" [0, 1]).cand = [(5, 1), (10, 0)] := by
  refine ⟨rfl, rfl, ?_⟩
  decide

/-- C2 counterexample: a graph state containing a record with id "D"
(handle 3) in which `add_node` of a fresh record with the same id "D"
returns `True` and installs a second record with that id: the duplicate is
never seen by the approximate layer search (the heap pops the farthest
candidate first, so the loop breaks before reaching it), so no
`NodeAlreadyExists` is raised and the graph changes. -/
theorem C2_duplicate_insert_succeeds :
    already_exists dupGraph "D" (graphHandles dupGraph) = true ∧
    (add_node dupScore dupGraph "D" 1 0).isOk = true ∧
    (add_node dupScore dupGraph "D" 1 0).state.nodes = [(0, [0, 1, 2, 3, 4])] ∧
    (add_node dupScore dupGraph "D" 1 0).state.nbrsAt 2 0 = [0, 3, 4] := by
  decide

/-- C2 amended: a duplicate insert fails with `NodeAlreadyExists` only when
the searches see the duplicate.  (1) If the enter point carries the new id,
`add_node` raises `NodeAlreadyExists` and the graph is unchanged (only the
abandoned argument object was created).  (2) When the duplicate is instead
detected mid-sweep (here at layer 0, after a layer-1 edge was already
installed), the edges added at the layers above are rolled back before the
failure returns: the surviving records keep exactly their original
neighbor sets.  But as `C2_duplicate_insert_succeeds` shows, the search can
also miss the duplicate entirely, in which case the insert succeeds. -/
theorem C2_detected_duplicate_rolls_back :
    (∀ (sc : String → String → Int) (st : HNSWState) (e : Nat) (hid : String)
      (L : Nat),
      st.enterPoint = some e → e < st.store.length → (st.node e).hid = hid →
      add_node sc st hid st.algTag L = .err .nodeAlreadyExists
        { st with store := st.store ++
          [⟨hid, st.algTag, L, List.replicate (L + 1) []⟩] } ∧
      (∀ u L', ({ st with store := st.store ++
          [⟨hid, st.algTag, L, List.replicate (L + 1) []⟩] } :
        HNSWState).nbrsAt u L' = st.nbrsAt u L')) ∧
    (add_node rbScore rbGraph "X" 1 1 = .err .nodeAlreadyExists rbGraphAfter ∧
      rbGraphAfter.nbrsAt 0 0 = rbGraph.nbrsAt 0 0 ∧
      rbGraphAfter.nbrsAt 0 1 = rbGraph.nbrsAt 0 1 ∧
      rbGraphAfter.nbrsAt 1 0 = rbGraph.nbrsAt 1 0 ∧
      rbGraphAfter.nodes = rbGraph.nodes ∧
      rbGraphAfter.enterPoint = rbGraph.enterPoint) := by
  constructor
  · intro sc st e hid L hep he hhid
    constructor
    · unfold add_node
      dsimp only
      rw [if_neg (fun hc => hc rfl)]
      rw [hep]
      dsimp only
      have hstore : (st.store ++
          [(⟨hid, st.algTag, L, List.replicate (L + 1) []⟩ : Node)])[e]? =
          st.store[e]? := by
        rw [List.getElem?_append, if_pos he]
      simp only [HNSWState.node] at hhid ⊢
      simp only [hstore, hhid, if_true]
    · exact fun u L' => nbrsAt_append_replicate st hid st.algTag L u L'
  · decide

/-- C2 witness: the enter-point-duplicate case instantiated on `dupGraph`
with the enter point's own id "A". -/
theorem C2_detected_duplicate_rolls_back_witness :
    add_node dupScore dupGraph "A" dupGraph.algTag 0 = .err .nodeAlreadyExists
      { dupGraph with store := dupGraph.store ++
        [⟨"A", dupGraph.algTag, 0, List.replicate (0 + 1) []⟩] } :=
  (C2_detected_duplicate_rolls_back.1 dupScore dupGraph 0 "A" 0 rfl (by decide)
    (by decide)).1

/-- C3: the spec claims deleting the entry point of a singleton graph sets
`entry_point` to null.  On the source, `delete_node` calls
`self.search_layer_knn`, a method the class does not define (only
`_search_layer_knn` exists), so the call raises `AttributeError` on every
non-empty graph: the singleton delete leaves the enter point — and the
whole state — untouched, and the enter point is never set to null. -/
theorem C3_singleton_delete_leaves_enter_point :
    delete_node isoScore singletonGraph "X" 1 = .err .attributeError singletonGraph ∧
    singletonGraph.enterPoint = some 0 ∧
    graphHandles singletonGraph = [0] := by
  decide

/-- C4: after any sequence of inserts and deletes starting from a fresh
index, every edge between records registered in the `_nodes` dictionary is
bidirectional.  Inserts add edges in symmetric pairs and roll back both
directions of the new node's edges on duplicate detection; the shrink step
never completes (it raises `NameError` first); and deletes raise
`AttributeError` before touching any neighbor set. -/
theorem C4_edges_bidirectional (sc : String → String → Int)
    (M Mmax Mmax0 ef : Nat) (hr ext keep spatial : Bool) (tag : Nat)
    (ops : List Op) :
    Sym (runOps sc (mkHNSW M Mmax Mmax0 ef hr ext keep spatial tag) ops) :=
  (runOps_inv sc ops _ (mkHNSW_inv M Mmax Mmax0 ef hr ext keep spatial tag)).1

/-- C5: the spec claims the shrink step replaces an over-cap neighbor list
with `select_neighbors(n, n.neighbors[L], cap(L), L)`.  The source's
`_shrink_nodes` passes the unbound name `node` (the loop variable is
`_node`) to `_select_neighbors`, so reaching the over-cap branch raises
`NameError`: on a graph with `Mmax0 = 1`, inserting a record linked to
both existing records aborts with `NameError` and leaves both neighbor
lists at length 2, above the cap. -/
theorem C5_shrink_raises_name_error :
    add_node shrinkScore shrinkGraph "N" 1 0 = .err .nameError shrinkGraphAfter ∧
    shrinkGraphAfter.Mmax0 = 1 ∧
    (shrinkGraphAfter.nbrsAt 0 0).length = 2 ∧
    (shrinkGraphAfter.nbrsAt 1 0).length = 2 := by
  decide

/-- C6 counterexample: `_search_layer_knn` can return more than `ef`
records.  `W` starts as `set(enter_points)` and is only trimmed when a
neighbor is added, so with two edge-free enter points and `ef = 1` the
search returns both. -/
theorem C6_search_can_exceed_ef :
    search_layer_knn isoScore isoGraph "Q" [0, 1] 1 0 = [0, 1] ∧
    ¬((search_layer_knn isoScore isoGraph "Q" [0, 1] 1 0).length ≤ 1) := by
  decide

/-- C6 amended: for every state, query, entry list, `ef` and layer, the
layer search returns at most `max |set(eps)| ef` records, and every
returned record is reachable from the entry set along layer-`layer`
neighbor sets. -/
theorem C6_search_bound_and_reachable (sc : String → String → Int)
    (st : HNSWState) (q : String) (eps : List Nat) (ef layer : Nat) :
    (search_layer_knn sc st q eps ef layer).length ≤
      max (dedupFirst eps).length ef ∧
    ∀ x ∈ search_layer_knn sc st q eps ef layer, Reaches st layer eps x :=
  ⟨search_layer_knn_le sc st q eps ef layer,
    search_layer_knn_reaches sc st q eps ef layer⟩

/-- C6 witness: on the two-record linked graph, the search from one enter
point satisfies the bound and reaches the other record. -/
theorem C6_search_bound_and_reachable_witness :
    (search_layer_knn isoScore pairGraph "Q" [0] 4 0).length ≤
      max (dedupFirst [0]).length 4 ∧
    Reaches pairGraph 0 [0] 1 :=
  ⟨(C6_search_bound_and_reachable isoScore pairGraph "Q" [0] 4 0).1,
    (C6_search_bound_and_reachable isoScore pairGraph "Q" [0] 4 0).2 1 (by decide)⟩

/-- C7: the spec claims `knn_search` on an empty index fails with the
IndexEmpty error (`HNSWIsEmptyError`).  The source never checks emptiness
in `knn_search`: `_descend_to_layer` dereferences the null
`self._enter_point` and raises `AttributeError` instead, for every
matching-algorithm query, `k` and `ef`. -/
theorem C7_knn_search_empty_attribute_error (sc : String → String → Int)
    (st : HNSWState) (qhid : String) (k ef : Nat)
    (hempty : st.enterPoint = none) :
    knn_search sc st qhid st.algTag k ef = .err .attributeError st := by
  unfold knn_search
  rw [if_neg (fun hc => hc rfl)]
  have hd : descend_to_layer sc st qhid 1 = .error .attributeError := by
    unfold descend_to_layer
    rw [hempty]
  dsimp only
  rw [hd]

/-- C7 witness: a freshly constructed index with no records. -/
theorem C7_knn_search_empty_attribute_error_witness :
    knn_search isoScore emptyGraph "Q" emptyGraph.algTag 2 4 =
      .err .attributeError emptyGraph :=
  C7_knn_search_empty_attribute_error isoScore emptyGraph "Q" 2 4 rfl

/-- C8 counterexample: heuristic selection does not operate on a copy:
`_working_candidates = candidates` aliases the caller's set and the
selection loop removes every examined element from it.  Selecting one
neighbor out of the two-element candidate set `{0, 1}` leaves the caller's
set holding only `{1}`. -/
theorem C8_selection_mutates_candidates :
    select_neighbors_heuristics isoScore isoGraph "Q" [0, 1] 1 0 false false =
      .ok ([0], [1]) ∧ ([1] : List Nat) ≠ [0, 1] := by
  decide

/-- C8 amended: the heuristic selection mutates the caller's candidate set
in place.  With `extend_candidates` off, whenever the candidate set is
nonempty and `M > 0`, the set the caller retains after the call is strictly
smaller than what it passed in.  (With `extend_candidates` on, the code
adds the candidates' layer neighbors to the set being iterated and CPython
raises `RuntimeError` whenever an addition actually grows it.) -/
theorem C8_selection_drains_candidates (sc : String → String → Int)
    (st : HNSWState) (q : String) (cands : List Nat) (M layer : Nat)
    (keep : Bool) (r w : List Nat) (hc : cands ≠ []) (hM : 0 < M)
    (h : select_neighbors_heuristics sc st q cands M layer false keep =
      .ok (r, w)) :
    w.length < cands.length := by
  unfold select_neighbors_heuristics at h
  rw [if_neg (by simp)] at h
  dsimp only at h
  have hlt : (heurLoop sc st q M cands.length cands [] []).2.1.length <
      cands.length := by
    cases hfuel : cands.length with
    | zero => exact absurd (List.length_eq_zero.mp hfuel) hc
    | succ n =>
      have hx := heurLoop_w_lt sc st q M n cands [] hc hM
      exact hfuel ▸ hx
  by_cases hk : keep
  · rw [if_pos hk] at h
    injection h with h1
    injection h1 with h2 h3
    exact h3 ▸ hlt
  · rw [if_neg hk] at h
    injection h with h1
    injection h1 with h2 h3
    exact h3 ▸ hlt

/-- C8 witness: the amended statement at the concrete counterexample
input. -/
theorem C8_selection_drains_candidates_witness :
    ([1] : List Nat).length < ([0, 1] : List Nat).length :=
  C8_selection_drains_candidates isoScore isoGraph "Q" [0, 1] 1 0 false [0] [1]
    (by decide) (by decide) (by decide)

/-- C9 counterexample: a single-bit flip inside the entry-point section of
a valid dump need not fail with BadCRC: the entry record's page id is
resolved through the record loader before its CRC is compared, so flipping
a bit of the stored page id (bit 417 of the demo file, inside byte 52, the
first byte of the entry section) makes the load fail with a loader failure
instead of BadCRC. -/
theorem C9_entry_flip_fails_loader :
    loadApotheosis demoFetch 1 (flipBit demoFile 417) = .error .loaderFailed ∧
    (LoadErr.loaderFailed ≠ LoadErr.badCRC) ∧
    loadApotheosis demoFetch 1 demoFile =
      .ok ⟨1, 1, [(1, "H1", 0)], []⟩ := by
  refine ⟨by decide, by decide, by decide⟩

/-- C9 amended: each section CRC32 is computed over the raw bytes read and
compared with the header value, and a cfg mismatch fails with BadCRC
before anything of the cfg is parsed — in particular every single-bit flip
inside the cfg section of the demo dump fails with BadCRC.  Entry and
nodes sections, however, are parsed and their page ids resolved through
the record loader before their CRC comparison, so a flip there can
surface as a loader failure instead (see `C9_entry_flip_fails_loader`). -/
theorem C9_cfg_mismatch_bad_crc :
    (∀ (fetch : Nat → Option String) (tag : Nat) (file : List Nat),
      ¬ file.take 2 = [31, 139] →
      (readBytes file 0 HEADER_SIZE).1.take 2 = [65, 80] →
      (readBytes file 0 HEADER_SIZE).1.getD 2 0 = 1 →
      crc32 (readBytes file (readBytes file 0 HEADER_SIZE).2 CFG_SIZE).1 ≠
        intFromBytesLE (((readBytes file 0 HEADER_SIZE).1.drop 4).take 4) →
      loadApotheosis fetch tag file = .error .badCRC) ∧
    ((List.range (CFG_SIZE * 8)).all (fun i =>
      decide (loadApotheosis demoFetch 1
        (flipBit demoFile (HEADER_SIZE * 8 + i)) = .error .badCRC))) = true := by
  constructor
  · intro fetch tag file h1 h2 h3 h4
    unfold loadApotheosis
    rw [if_neg h1]
    dsimp only
    rw [decide_eq_true h2, decide_eq_true h3]
    rw [if_neg (by simp)]
    rw [if_pos h4]
  · decide

/-- C9 witness: the cfg-mismatch case instantiated on the demo dump with
its first cfg bit flipped. -/
theorem C9_cfg_mismatch_bad_crc_witness :
    loadApotheosis demoFetch 1 (flipBit demoFile (HEADER_SIZE * 8)) =
      .error .badCRC :=
  C9_cfg_mismatch_bad_crc.1 demoFetch 1 (flipBit demoFile (HEADER_SIZE * 8))
    (by decide) (by decide) (by decide) (by decide)

/-- C10 counterexample: the claim describes successful deletes removing
the victim from every neighbor's set.  No delete ever succeeds on this
source: on a two-record graph, deleting record "B" raises `AttributeError`
(undefined method `search_layer_knn`) with the state untouched, the victim
still in its neighbor's layer-0 set. -/
theorem C10_delete_never_succeeds :
    delete_node isoScore pairGraph "B" 1 = .err .attributeError pairGraph ∧
    (delete_node isoScore pairGraph "B" 1).isOk = false ∧
    1 ∈ pairGraph.nbrsAt 0 0 := by
  decide

/-- C10 amended: `delete_node` never returns successfully — it raises on
every input with the state unchanged — and no graph operation ever removes
an entry from the per-layer `_nodes` index: every handle registered at a
layer before an operation is still registered there afterwards. -/
theorem C10_nodes_index_never_shrinks :
    (∀ (sc : String → String → Int) (st : HNSWState) (hid : String) (alg : Nat),
      (delete_node sc st hid alg).isOk = false ∧
      (delete_node sc st hid alg).state = st) ∧
    (∀ (sc : String → String → Int) (st : HNSWState) (op : Op) (L u : Nat),
      u ∈ nodesAt st L → u ∈ nodesAt (applyOp sc st op) L) :=
  ⟨fun sc st hid alg =>
    ⟨(delete_node_state sc st hid alg).2, (delete_node_state sc st hid alg).1⟩,
   fun sc st op L u hu => mem_nodesAt_applyOp sc st op L u hu⟩

/-- C10 witness: the amended statement at a concrete input: the failing
delete on the two-record graph, and handle 0 surviving at layer 0 of the
`_nodes` index across that delete. -/
theorem C10_nodes_index_never_shrinks_witness :
    (delete_node isoScore pairGraph "B" 1).isOk = false ∧
    0 ∈ nodesAt (applyOp isoScore pairGraph (Op.del "B" 1)) 0 :=
  ⟨(C10_nodes_index_never_shrinks.1 isoScore pairGraph "B" 1).1,
   C10_nodes_index_never_shrinks.2 isoScore pairGraph (Op.del "B" 1) 0 0 (by decide)⟩

end HNSW4
